import Mathlib

/-!
# Verification of the flow_sync repository

Shallow embedding of src/flow_sync.py: the bidirectional synchronization
engine between remote "flow" configuration documents and local JSON files.

Modelling conventions:
* File modification times are rationals (Python float mtimes), measured in
  seconds since the Unix epoch in a fixed timezone with no DST, so that
  time.strptime + time.mktime and datetime.fromtimestamp + strftime are a
  pure calendar conversion pair at second resolution.
* The filesystem is an association list from path to file data; file content
  is the parsed JSON document when the text is well-formed JSON, or nothing
  when json.load would fail on it.
* HTTP transport is a parameter: a pull receives the decoded response body
  (or nothing, for an empty or failed response); a push receives a flag
  saying whether the POST would succeed.
-/

set_option maxRecDepth 100000

namespace FlowSync

/-! ## Calendar arithmetic

Models the proleptic Gregorian calendar at second resolution, as used by
the format string used at src/flow_sync.py lines 78 and 111
(four-digit zero-padded year, then zero-padded month, day, hour, minute,
second). Day counts start at year 0, month 1, day 1.
-/

def isLeap (y : Nat) : Bool := (y % 4 == 0 && y % 100 != 0) || (y % 400 == 0)

def daysInMonth (y m : Nat) : Nat :=
  if m == 2 then (if isLeap y then 29 else 28)
  else if m == 4 || m == 6 || m == 9 || m == 11 then 30
  else 31

def daysInYear (y : Nat) : Nat := if isLeap y then 366 else 365

/-- Total days of the `k` consecutive months `firstM, firstM+1, ...` of year `y`. -/
def monthSpan (y firstM : Nat) : Nat → Nat
  | 0 => 0
  | k+1 => daysInMonth y firstM + monthSpan y (firstM+1) k

/-- Total days of the `k` consecutive years `y, y+1, ...`. -/
def yearSpan (y : Nat) : Nat → Nat
  | 0 => 0
  | k+1 => daysInYear y + yearSpan (y+1) k

/-- A broken-down timestamp, like Python struct_time at second resolution. -/
structure Civil where
  year : Nat
  month : Nat
  day : Nat
  hour : Nat
  minute : Nat
  second : Nat
deriving DecidableEq, Repr

/-- Validity of a broken-down timestamp (month and day in range for the
Gregorian calendar, time of day in range). -/
def Civil.validB (c : Civil) : Bool :=
  1 ≤ c.month && c.month ≤ 12 && 1 ≤ c.day && c.day ≤ daysInMonth c.year c.month &&
  c.hour < 24 && c.minute < 60 && c.second < 60

/-- Days elapsed from year 0, January 1 to year `y`, January 1, computed
through whole 400 year Gregorian cycles of 146097 days (so that the
definition evaluates without deep recursion). -/
def daysBeforeYear (y : Nat) : Nat := 146097 * (y / 400) + yearSpan 0 (y % 400)

/-- Day number of a date: days elapsed since year 0, January 1. -/
def toDayNumber (c : Civil) : Nat :=
  daysBeforeYear c.year + monthSpan c.year 1 (c.month - 1) + (c.day - 1)

/-- Seconds elapsed since year 0, January 1, 00:00:00 (fixed timezone). -/
def toSec (c : Civil) : Nat :=
  86400 * toDayNumber c + 3600 * c.hour + 60 * c.minute + c.second

/-- Find the year containing day `n` counted from January 1 of year `y`,
returning the year and the day offset inside it. Fuel bounds the search. -/
def findYear : Nat → Nat → Nat → Nat × Nat
  | 0, y, n => (y, n)
  | fuel+1, y, n => if n < daysInYear y then (y, n) else findYear fuel (y+1) (n - daysInYear y)

/-- Find the month containing day `n` counted from the first of month `m`
of year `y`, returning the month and the day offset inside it. -/
def findMonth : Nat → Nat → Nat → Nat → Nat × Nat
  | 0, _, m, n => (m, n)
  | fuel+1, y, m, n => if n < daysInMonth y m then (m, n) else findMonth fuel y (m+1) (n - daysInMonth y m)

/-- Break a day number into year and day of year: whole 400 year cycles
first, then a bounded search inside one cycle. -/
def fromDay (n : Nat) : Nat × Nat :=
  let q := n / 146097
  let r := n % 146097
  let yr := findYear 401 0 r
  (400 * q + yr.1, yr.2)

/-- Break seconds since year 0 back into a `Civil` timestamp. -/
def fromSec (n : Nat) : Civil :=
  let day := n / 86400
  let tod := n % 86400
  let yr := fromDay day
  let mo := findMonth 12 yr.1 1 yr.2
  ⟨yr.1, mo.1, mo.2 + 1, tod / 3600, tod % 3600 / 60, tod % 60⟩

/-! ### Round-trip: `fromSec` inverts `toSec` on valid timestamps -/

theorem monthSpan_add (y a : Nat) : ∀ i j, monthSpan y a (i + j) = monthSpan y a i + monthSpan y (a + i) j := by
  intro i
  induction i generalizing a with
  | zero => intro j; simp [monthSpan]
  | succ i ih =>
    intro j
    have h := ih (a+1) j
    simp only [Nat.succ_add, monthSpan]
    rw [show a + (i+1) = a+1+i by omega]
    omega

theorem monthSpan_year (y : Nat) : monthSpan y 1 12 = daysInYear y := by
  by_cases h : isLeap y = true <;>
    simp [monthSpan, daysInMonth, daysInYear, h]

theorem daysInYear_add_400 (y : Nat) : daysInYear (y + 400) = daysInYear y := by
  have h4 : (y + 400) % 4 = y % 4 := by omega
  have h100 : (y + 400) % 100 = y % 100 := by omega
  have h400 : (y + 400) % 400 = y % 400 := by omega
  unfold daysInYear isLeap
  rw [h4, h100, h400]

theorem daysInYear_add_mul (b a : Nat) : daysInYear (b + 400 * a) = daysInYear b := by
  induction a with
  | zero => simp
  | succ a ih =>
    rw [show b + 400 * (a + 1) = (b + 400 * a) + 400 by ring, daysInYear_add_400, ih]

theorem yearSpan_shift : ∀ (k y : Nat), yearSpan (y + 400) k = yearSpan y k := by
  intro k
  induction k with
  | zero => intro y; rfl
  | succ k ih =>
    intro y
    simp only [yearSpan]
    rw [daysInYear_add_400, show y + 400 + 1 = (y + 1) + 400 by omega, ih (y + 1)]

theorem yearSpan_add (y : Nat) : ∀ i j, yearSpan y (i + j) = yearSpan y i + yearSpan (y + i) j := by
  intro i
  induction i generalizing y with
  | zero => intro j; simp [yearSpan]
  | succ i ih =>
    intro j
    have h := ih (y + 1) j
    simp only [Nat.succ_add, yearSpan]
    rw [show y + (i + 1) = y + 1 + i by omega]
    omega

theorem yearSpan_400 : yearSpan 0 400 = 146097 := by decide

theorem yearSpan_shift_mul (a : Nat) : ∀ (y k : Nat), yearSpan (y + 400 * a) k = yearSpan y k := by
  induction a with
  | zero => intro y k; simp
  | succ a ih =>
    intro y k
    rw [show y + 400 * (a + 1) = (y + 400 * a) + 400 by ring, yearSpan_shift, ih]

theorem findYear_spec : ∀ (k fuel y r : Nat), r < daysInYear (y + k) → k < fuel →
    findYear fuel y (yearSpan y k + r) = (y + k, r) := by
  intro k
  induction k with
  | zero =>
    intro fuel y r hr hf
    obtain ⟨fuel, rfl⟩ : ∃ f, fuel = f + 1 := ⟨fuel - 1, by omega⟩
    simp only [yearSpan, findYear, Nat.zero_add]
    rw [if_pos (by simpa using hr)]
    simp
  | succ k ih =>
    intro fuel y r hr hf
    obtain ⟨fuel, rfl⟩ : ∃ f, fuel = f + 1 := ⟨fuel - 1, by omega⟩
    have hr' : r < daysInYear (y + 1 + k) := by
      rw [show y+1+k = y+(k+1) by omega]; exact hr
    simp only [yearSpan, findYear]
    rw [if_neg (by omega)]
    rw [show daysInYear y + yearSpan (y+1) k + r - daysInYear y = yearSpan (y+1) k + r by omega]
    rw [ih fuel (y+1) r hr' (by omega)]
    simp only [Prod.mk.injEq, and_true]
    omega

theorem findMonth_spec : ∀ (k fuel y m r : Nat), r < daysInMonth y (m + k) → k < fuel →
    findMonth fuel y m (monthSpan y m k + r) = (m + k, r) := by
  intro k
  induction k with
  | zero =>
    intro fuel y m r hr hf
    obtain ⟨fuel, rfl⟩ : ∃ f, fuel = f + 1 := ⟨fuel - 1, by omega⟩
    simp only [monthSpan, findMonth, Nat.zero_add]
    rw [if_pos (by simpa using hr)]
    simp
  | succ k ih =>
    intro fuel y m r hr hf
    obtain ⟨fuel, rfl⟩ : ∃ f, fuel = f + 1 := ⟨fuel - 1, by omega⟩
    have hr' : r < daysInMonth y (m + 1 + k) := by
      rw [show m+1+k = m+(k+1) by omega]; exact hr
    simp only [monthSpan, findMonth]
    rw [if_neg (by omega)]
    rw [show daysInMonth y m + monthSpan y (m+1) k + r - daysInMonth y m = monthSpan y (m+1) k + r by omega]
    rw [ih fuel y (m+1) r hr' (by omega)]
    simp only [Prod.mk.injEq, and_true]
    omega

theorem dayOfYear_lt (c : Civil) (h : c.validB = true) :
    monthSpan c.year 1 (c.month - 1) + (c.day - 1) < daysInYear c.year := by
  simp only [Civil.validB, Bool.and_eq_true, decide_eq_true_eq] at h
  obtain ⟨⟨⟨⟨⟨⟨hm1, hm2⟩, hd1⟩, hd2⟩, _⟩, _⟩, _⟩ := h
  have hsplit : monthSpan c.year 1 12
      = monthSpan c.year 1 (c.month - 1) + monthSpan c.year (1 + (c.month - 1)) (13 - c.month) := by
    rw [← monthSpan_add]
    congr 1
    omega
  have hm : 1 + (c.month - 1) = c.month := by omega
  rw [hm] at hsplit
  have hrest : monthSpan c.year c.month (13 - c.month) =
      daysInMonth c.year c.month + monthSpan c.year (c.month + 1) (12 - c.month) := by
    have : 13 - c.month = (12 - c.month) + 1 := by omega
    rw [this]
    rfl
  rw [← monthSpan_year c.year, hsplit, hrest]
  omega

theorem fromDay_eq (n : Nat) : fromDay n =
    (400 * (n / 146097) + (findYear 401 0 (n % 146097)).1, (findYear 401 0 (n % 146097)).2) := rfl

theorem fromDay_spec (y r : Nat) (hr : r < daysInYear y) :
    fromDay (daysBeforeYear y + r) = (y, r) := by
  have hb : y % 400 < 400 := by omega
  have hdper : daysInYear y = daysInYear (y % 400) := by
    conv_lhs => rw [show y = y % 400 + 400 * (y / 400) by omega]
    exact daysInYear_add_mul (y % 400) (y / 400)
  have hr' : r < daysInYear (y % 400) := hdper ▸ hr
  have hbound : yearSpan 0 (y % 400) + r < 146097 := by
    have h1 := yearSpan_add 0 (y % 400) 1
    have h1' : yearSpan (0 + y % 400) 1 = daysInYear (y % 400) := by
      simp [yearSpan]
    rw [h1'] at h1
    have h2 := yearSpan_add 0 (y % 400 + 1) (399 - y % 400)
    rw [show (y % 400 + 1) + (399 - y % 400) = 400 by omega, yearSpan_400] at h2
    omega
  have hn : daysBeforeYear y + r = 146097 * (y / 400) + (yearSpan 0 (y % 400) + r) := by
    unfold daysBeforeYear
    ring
  have hdiv : (146097 * (y / 400) + (yearSpan 0 (y % 400) + r)) / 146097 = y / 400 := by
    omega
  have hmod : (146097 * (y / 400) + (yearSpan 0 (y % 400) + r)) % 146097 = yearSpan 0 (y % 400) + r := by
    omega
  rw [fromDay_eq, hn, hdiv, hmod]
  have hfy := findYear_spec (y % 400) 401 0 r (by simpa using hr') (by omega)
  simp only [Nat.zero_add] at hfy
  rw [hfy]
  refine Prod.ext ?_ rfl
  simp only
  omega

theorem fromSec_eq (n : Nat) : fromSec n =
    ⟨(fromDay (n / 86400)).1,
     (findMonth 12 (fromDay (n / 86400)).1 1 (fromDay (n / 86400)).2).1,
     (findMonth 12 (fromDay (n / 86400)).1 1 (fromDay (n / 86400)).2).2 + 1,
     n % 86400 / 3600, n % 86400 % 3600 / 60, n % 86400 % 60⟩ := rfl

theorem fromSec_toSec (c : Civil) (h : c.validB = true) : fromSec (toSec c) = c := by
  have hv := h
  simp only [Civil.validB, Bool.and_eq_true, decide_eq_true_eq] at hv
  obtain ⟨⟨⟨⟨⟨⟨hm1, hm2⟩, hd1⟩, hd2⟩, hh⟩, hmi⟩, hs⟩ := hv
  have hdoy := dayOfYear_lt c h
  have htod : 3600 * c.hour + 60 * c.minute + c.second < 86400 := by omega
  have hdiv : toSec c / 86400 = toDayNumber c := by
    unfold toSec; omega
  have hmod : toSec c % 86400 = 3600 * c.hour + 60 * c.minute + c.second := by
    unfold toSec; omega
  have hyr : fromDay (toDayNumber c) = (c.year, monthSpan c.year 1 (c.month - 1) + (c.day - 1)) := by
    rw [show toDayNumber c
        = daysBeforeYear c.year + (monthSpan c.year 1 (c.month - 1) + (c.day - 1)) by
      unfold toDayNumber; ring]
    exact fromDay_spec c.year _ hdoy
  have hmo : findMonth 12 c.year 1 (monthSpan c.year 1 (c.month - 1) + (c.day - 1)) = (c.month, c.day - 1) := by
    have := findMonth_spec (c.month - 1) 12 c.year 1 (c.day - 1)
      (by rw [show 1 + (c.month - 1) = c.month by omega]; omega) (by omega)
    rw [show 1 + (c.month - 1) = c.month by omega] at this
    exact this
  obtain ⟨cy, cm, cd, ch, cmi, cs⟩ := c
  simp only at hm1 hm2 hd1 hd2 hh hmi hs hdoy htod hdiv hmod hyr hmo
  rw [fromSec_eq, hdiv, hmod, hyr]
  dsimp only
  rw [hmo]
  dsimp only
  simp only [Civil.mk.injEq, true_and, and_true]
  omega

/-! ## Timestamp strings

The format string used at src/flow_sync.py lines 78 and 111 is
four-digit year, dash, two-digit month, dash, two-digit day, space,
two-digit hour, colon, two-digit minute, colon, two-digit second,
all zero padded.
-/

def digitVal (c : Char) : Nat := c.toNat - 48

def natToDigit (n : Nat) : Char := Char.ofNat (48 + n)

def isDigitB (c : Char) : Bool := 48 ≤ c.toNat && c.toNat ≤ 57

def read2 (a b : Char) : Option Nat :=
  if isDigitB a && isDigitB b then some (10 * digitVal a + digitVal b) else none

def read4 (a b c d : Char) : Option Nat :=
  if isDigitB a && isDigitB b && isDigitB c && isDigitB d then
    some (1000 * digitVal a + 100 * digitVal b + 10 * digitVal c + digitVal d)
  else none

def pad2 (n : Nat) : List Char := [natToDigit (n / 10), natToDigit (n % 10)]

def pad4 (n : Nat) : List Char :=
  [natToDigit (n / 1000), natToDigit (n / 100 % 10), natToDigit (n / 10 % 10), natToDigit (n % 10)]

/-- Render a broken-down timestamp in the fixed second-resolution format. -/
def formatCivil (c : Civil) : List Char :=
  pad4 c.year ++ '-' :: (pad2 c.month ++ '-' :: (pad2 c.day ++ ' ' :: (pad2 c.hour ++ ':' :: (pad2 c.minute ++ ':' :: pad2 c.second))))

/-- Parse the fixed second-resolution format, accepting exactly the
calendar-valid, normalized timestamps (models time.strptime restricted to
well-formed input, which is the format the remote is specified to send). -/
def parseCivil : List Char → Option Civil
  | [y1,y2,y3,y4,'-',m1,m2,'-',d1,d2,' ',h1,h2,':',n1,n2,':',s1,s2] => do
    let y ← read4 y1 y2 y3 y4
    let mo ← read2 m1 m2
    let d ← read2 d1 d2
    let h ← read2 h1 h2
    let mi ← read2 n1 n2
    let sc ← read2 s1 s2
    let c : Civil := ⟨y, mo, d, h, mi, sc⟩
    if c.validB then some c else none
  | _ => none

theorem digit_roundtrip (c : Char) (h : isDigitB c = true) : natToDigit (digitVal c) = c := by
  simp only [isDigitB, Bool.and_eq_true, decide_eq_true_eq] at h
  unfold natToDigit digitVal
  rw [show 48 + (c.toNat - 48) = c.toNat by omega, Char.ofNat_toNat]

theorem digitVal_le (c : Char) (h : isDigitB c = true) : digitVal c ≤ 9 := by
  simp only [isDigitB, Bool.and_eq_true, decide_eq_true_eq] at h
  unfold digitVal
  omega

theorem read2_pad2 (a b : Char) (v : Nat) (h : read2 a b = some v) : pad2 v = [a, b] := by
  unfold read2 at h
  by_cases hd : (isDigitB a && isDigitB b) = true
  · rw [if_pos hd] at h
    simp only [Bool.and_eq_true] at hd
    obtain ⟨ha, hb⟩ := hd
    have hA := digitVal_le a ha
    have hB := digitVal_le b hb
    obtain rfl : 10 * digitVal a + digitVal b = v := by injection h
    unfold pad2
    rw [show (10 * digitVal a + digitVal b) / 10 = digitVal a by omega]
    rw [show (10 * digitVal a + digitVal b) % 10 = digitVal b by omega]
    rw [digit_roundtrip a ha, digit_roundtrip b hb]
  · rw [if_neg hd] at h
    exact absurd h (by simp)

theorem read4_pad4 (a b c d : Char) (v : Nat) (h : read4 a b c d = some v) : pad4 v = [a, b, c, d] := by
  unfold read4 at h
  by_cases hd : (isDigitB a && isDigitB b && isDigitB c && isDigitB d) = true
  · rw [if_pos hd] at h
    simp only [Bool.and_eq_true] at hd
    obtain ⟨⟨⟨ha, hb⟩, hc⟩, hdd⟩ := hd
    have hA := digitVal_le a ha
    have hB := digitVal_le b hb
    have hC := digitVal_le c hc
    have hD := digitVal_le d hdd
    obtain rfl : 1000 * digitVal a + 100 * digitVal b + 10 * digitVal c + digitVal d = v := by injection h
    unfold pad4
    rw [show (1000 * digitVal a + 100 * digitVal b + 10 * digitVal c + digitVal d) / 1000 = digitVal a by omega]
    rw [show (1000 * digitVal a + 100 * digitVal b + 10 * digitVal c + digitVal d) / 100 % 10 = digitVal b by omega]
    rw [show (1000 * digitVal a + 100 * digitVal b + 10 * digitVal c + digitVal d) / 10 % 10 = digitVal c by omega]
    rw [show (1000 * digitVal a + 100 * digitVal b + 10 * digitVal c + digitVal d) % 10 = digitVal d by omega]
    rw [digit_roundtrip a ha, digit_roundtrip b hb, digit_roundtrip c hc, digit_roundtrip d hdd]
  · rw [if_neg hd] at h
    exact absurd h (by simp)

theorem parseCivil_valid (s : List Char) (c : Civil) (h : parseCivil s = some c) : c.validB = true := by
  unfold parseCivil at h
  split at h
  case _ =>
    simp only [Option.bind_eq_bind] at h
    rcases hy : read4 _ _ _ _ with _ | yv <;> rw [hy] at h <;> simp only [Option.none_bind, Option.some_bind] at h
    · exact absurd h (by simp)
    rcases hm : read2 _ _ with _ | mv <;> rw [hm] at h <;> simp only [Option.none_bind, Option.some_bind] at h
    · exact absurd h (by simp)
    rcases hdv : read2 _ _ with _ | dv <;> rw [hdv] at h <;> simp only [Option.none_bind, Option.some_bind] at h
    · exact absurd h (by simp)
    rcases hh : read2 _ _ with _ | hv <;> rw [hh] at h <;> simp only [Option.none_bind, Option.some_bind] at h
    · exact absurd h (by simp)
    rcases hmi : read2 _ _ with _ | miv <;> rw [hmi] at h <;> simp only [Option.none_bind, Option.some_bind] at h
    · exact absurd h (by simp)
    rcases hs : read2 _ _ with _ | sv <;> rw [hs] at h <;> simp only [Option.none_bind, Option.some_bind] at h
    · exact absurd h (by simp)
    split at h
    · obtain rfl : _ = c := by injection h
      assumption
    · exact absurd h (by simp)
  case _ => exact absurd h (by simp)

theorem formatCivil_parseCivil (s : List Char) (c : Civil) (h : parseCivil s = some c) :
    formatCivil c = s := by
  unfold parseCivil at h
  split at h
  case _ y1 y2 y3 y4 m1 m2 d1 d2 h1 h2 n1 n2 s1 s2 =>
    simp only [Option.bind_eq_bind] at h
    rcases hy : read4 y1 y2 y3 y4 with _ | yv <;> rw [hy] at h <;> simp only [Option.none_bind, Option.some_bind] at h
    · exact absurd h (by simp)
    rcases hm : read2 m1 m2 with _ | mv <;> rw [hm] at h <;> simp only [Option.none_bind, Option.some_bind] at h
    · exact absurd h (by simp)
    rcases hdv : read2 d1 d2 with _ | dv <;> rw [hdv] at h <;> simp only [Option.none_bind, Option.some_bind] at h
    · exact absurd h (by simp)
    rcases hh : read2 h1 h2 with _ | hv <;> rw [hh] at h <;> simp only [Option.none_bind, Option.some_bind] at h
    · exact absurd h (by simp)
    rcases hmi : read2 n1 n2 with _ | miv <;> rw [hmi] at h <;> simp only [Option.none_bind, Option.some_bind] at h
    · exact absurd h (by simp)
    rcases hs : read2 s1 s2 with _ | sv <;> rw [hs] at h <;> simp only [Option.none_bind, Option.some_bind] at h
    · exact absurd h (by simp)
    split at h
    · obtain rfl : (⟨yv, mv, dv, hv, miv, sv⟩ : Civil) = c := by injection h
      unfold formatCivil
      simp only
      rw [read4_pad4 _ _ _ _ _ hy, read2_pad2 _ _ _ hm, read2_pad2 _ _ _ hdv,
        read2_pad2 _ _ _ hh, read2_pad2 _ _ _ hmi, read2_pad2 _ _ _ hs]
      rfl
    · exact absurd h (by simp)
  case _ => exact absurd h (by simp)

/-! ## Epoch conversions

src/flow_sync.py line 78 and 79 turn the remote gmt_modified string into
epoch seconds with time.strptime and time.mktime; line 111 turns a file
mtime back into a string with datetime.fromtimestamp and strftime. Epoch
seconds are counted from 1970-01-01 00:00:00 in the fixed model timezone.
-/

def epoch1970 : Nat := 86400 * daysBeforeYear 1970

/-- Epoch seconds of a parsed timestamp (time.mktime of a struct_time). -/
def civilEpoch (c : Civil) : Int := (toSec c : Int) - (epoch1970 : Int)

/-- Parse a gmt_modified string (time.strptime on well-formed input). -/
def parseTs (s : String) : Option Civil := parseCivil s.data

/-- Format a file mtime at second resolution
(datetime.fromtimestamp followed by strftime). Faithful to Python for
timestamps falling between year 0 and year 9999; the theorems that take an
arbitrary mtime carry that bound as a hypothesis. -/
def formatEpoch (t : Rat) : List Char :=
  formatCivil (fromSec (Rat.floor t + (epoch1970 : Int)).toNat)

/-- Mtime range in which `formatEpoch` is a faithful model (the formatted
year has exactly four digits). -/
def epochInRange (t : Rat) : Prop :=
  0 ≤ Rat.floor t + (epoch1970 : Int) ∧
    Rat.floor t + (epoch1970 : Int) < 86400 * (daysBeforeYear 10000 : Int)

instance (t : Rat) : Decidable (epochInRange t) := by
  unfold epochInRange
  infer_instance

theorem ratFloor_intCast (n : Int) : Rat.floor ((n : Int) : Rat) = n := by
  have : ((n : Int) : Rat) = ((n : Int) : ℚ) := rfl
  rw [show Rat.floor ((n : Int) : Rat) = ⌊((n : Int) : ℚ)⌋ from rfl]
  exact Int.floor_intCast n

/-- Write side then read side: formatting the mtime that was set from a
parsed timestamp string reproduces the broken-down timestamp. -/
theorem formatEpoch_civilEpoch (c : Civil) (h : c.validB = true) :
    formatEpoch ((civilEpoch c : Int) : Rat) = formatCivil c := by
  unfold formatEpoch civilEpoch
  rw [ratFloor_intCast]
  rw [show (toSec c : Int) - (epoch1970 : Int) + (epoch1970 : Int) = (toSec c : Int) by ring]
  rw [Int.toNat_natCast]
  rw [fromSec_toSec c h]

/-- The full round trip on the string: the local mtime written from a
well-formed gmt_modified string formats back to exactly that string. -/
theorem formatEpoch_parseTs (s : String) (c : Civil) (h : parseTs s = some c) :
    formatEpoch ((civilEpoch c : Int) : Rat) = s.data := by
  rw [formatEpoch_civilEpoch c (parseCivil_valid s.data c h)]
  exact formatCivil_parseCivil s.data c h

/-! ## Python string comparison

src/flow_sync.py line 112 compares the remote and local timestamp strings
with the Python > operator: lexicographic on code points. -/

def strLtB : List Char → List Char → Bool
  | [], [] => false
  | [], _ :: _ => true
  | _ :: _, [] => false
  | a :: as, b :: bs =>
    if a.toNat < b.toNat then true
    else if b.toNat < a.toNat then false
    else strLtB as bs

theorem strLtB_irrefl : ∀ s, strLtB s s = false := by
  intro s
  induction s with
  | nil => rfl
  | cons a as ih => simp [strLtB, ih]


/-! ## Bot registry, filesystem and paths

The registry is config bot_list (src/flow_sync.py line 41); the filesystem
is an association list path to file data. A file records the document its
text parses to (none when json.load would fail) and its mtime. -/

structure Bot where
  id : String
  name : String
deriving DecidableEq, Repr

structure FileData (α : Type) where
  content : Option α
  mtime : Rat
deriving DecidableEq

abbrev FS (α : Type) := List (String × FileData α)

def alGet {β : Type} : List (String × β) → String → Option β
  | [], _ => none
  | (q, v) :: rest, p => if q = p then some v else alGet rest p

def alSet {β : Type} : List (String × β) → String → β → List (String × β)
  | [], p, v => [(p, v)]
  | (q, w) :: rest, p, v => if q = p then (p, v) :: rest else (q, w) :: alSet rest p v

theorem alGet_alSet {β : Type} (l : List (String × β)) (p q : String) (v : β) :
    alGet (alSet l p v) q = if p = q then some v else alGet l q := by
  induction l with
  | nil =>
    by_cases h : p = q <;> simp [alSet, alGet, h]
  | cons hd tl ih =>
    obtain ⟨r, w⟩ := hd
    by_cases hrp : r = p
    · by_cases hpq : p = q <;> simp [alSet, alGet, hrp, hpq, ih]
    · by_cases hpq : p = q
      · subst hpq
        simp [alSet, alGet, hrp, ih]
      · simp [alSet, alGet, hrp, hpq, ih]

/-- Local directory for pulled files (INPUT_DIR, src/flow_sync.py line 28);
the constant absolute prefix of the real path is irrelevant to the logic. -/
def INPUT_DIR : String := "flow/input"

/-- Directory watched for pushes (OUTPUT_DIR, src/flow_sync.py line 29). -/
def OUTPUT_DIR : String := "flow/output"

/-- os.path.join of INPUT_DIR and the file name derived from a bot name,
as done at src/flow_sync.py lines 72 and 103. -/
def inputPath (name : String) : String := INPUT_DIR ++ "/" ++ name ++ ".json"

/-- The name `_save_flow` resolves for a bot id: first registry entry with
that id, falling back to the id itself (src/flow_sync.py line 71). -/
def registryName (bots : List Bot) (bot_id : String) : String :=
  match bots.find? (fun b => b.id == bot_id) with
  | some b => b.name
  | none => bot_id

/-! ## \_save\_flow and pull\_flow (remote to local reconciliation) -/

structure SaveResult (α : Type) where
  fs : FS α
  ok : Bool
  /-- paths whose content was written by this call -/
  writes : List String
deriving DecidableEq

/-- FlowSync.\_save\_flow (src/flow_sync.py lines 68 to 85): resolve the
file name from the registry by bot id, write the document, then if a
last_modified string was given (and is truthy) set the file mtime to its
strptime/mktime epoch value. A strptime failure happens after the write:
the file keeps the wall clock mtime `now` and the call reports failure. -/
def save_flow {α : Type} (bots : List Bot) (bot_id : String) (flow_data : α)
    (last_modified : Option String) (now : Rat) (fs : FS α) : SaveResult α :=
  let path := inputPath (registryName bots bot_id)
  match last_modified with
  | none => ⟨alSet fs path ⟨some flow_data, now⟩, true, [path]⟩
  | some lm =>
    if lm = "" then ⟨alSet fs path ⟨some flow_data, now⟩, true, [path]⟩
    else
      match parseTs lm with
      | some c => ⟨alSet fs path ⟨some flow_data, ((civilEpoch c : Int) : Rat)⟩, true, [path]⟩
      | none => ⟨alSet fs path ⟨some flow_data, now⟩, false, [path]⟩

/-- The decoded body of a successful GET: the three fields pull consumes. -/
structure RespData (α : Type) where
  flow_settings : α
  name : String
  gmt_modified : String
deriving DecidableEq

structure PullResult (α : Type) where
  fs : FS α
  writes : List String
  ret : Option α
deriving DecidableEq

/-- FlowSync.pull\_flow (src/flow_sync.py lines 87 to 122). `resp` is the
decoded response body: none models every failure up to and including an
empty body (transport error, non-2xx status, empty or falsy json), for
which the function returns None and touches nothing. With a body, the
target path is computed from the response name; if no file exists there
the document is saved unconditionally; otherwise the file mtime is
formatted at second resolution and the two timestamp strings are compared
with the Python > operator, saving only when remote is strictly newer. -/
def pull_flow {α : Type} (bots : List Bot) (bot_id : String)
    (resp : Option (RespData α)) (now : Rat) (fs : FS α) : PullResult α :=
  match resp with
  | none => ⟨fs, [], none⟩
  | some r =>
    let file_path := inputPath r.name
    match alGet fs file_path with
    | none =>
      let s := save_flow bots bot_id r.flow_settings (some r.gmt_modified) now fs
      ⟨s.fs, s.writes, some r.flow_settings⟩
    | some fd =>
      let local_modified := formatEpoch fd.mtime
      if strLtB local_modified r.gmt_modified.data then
        let s := save_flow bots bot_id r.flow_settings (some r.gmt_modified) now fs
        ⟨s.fs, s.writes, some r.flow_settings⟩
      else ⟨fs, [], some r.flow_settings⟩

/-! ## push\_flow (local to remote) -/

/-- How a push attempt ended. The code itself returns a plain bool and
distinguishes these cases only by which branch logged the failure; the
constructors name the branches after the error taxonomy of the spec:
no registry match (or falsy id), json.load failure, POST failure. -/
inductive PushOutcome where
  | pushedOk
  | unknownBot
  | invalidJson
  | httpError
deriving DecidableEq, Repr

/-- The registry scan of src/flow_sync.py lines 128 to 132: first bot
whose name matches, else none. -/
def resolveBotId (bots : List Bot) (bot_name : String) : Option String :=
  match bots.find? (fun b => b.name == bot_name) with
  | some b => some b.id
  | none => none

/-- FlowSync.push\_flow (src/flow_sync.py lines 124 to 153). `content` is
what json.load yields on the file (none when the text is malformed or the
file cannot be read); `remoteOk` says whether the POST would succeed.
Returns the outcome and the list of POST requests issued (bot id and
body). The Python `if not bot_id` check also fires on an empty id. -/
def push_flow {α : Type} (bots : List Bot) (bot_name : String)
    (content : Option α) (remoteOk : Bool) : PushOutcome × List (String × α) :=
  match resolveBotId bots bot_name with
  | none => (.unknownBot, [])
  | some bid =>
    if bid = "" then (.unknownBot, [])
    else
      match content with
      | none => (.invalidJson, [])
      | some doc =>
        if remoteOk then (.pushedOk, [(bid, doc)]) else (.httpError, [(bid, doc)])

/-- True when push\_flow reports success (the Python return value). -/
def PushOutcome.toBool : PushOutcome → Bool
  | .pushedOk => true
  | _ => false

/-! ## The file watcher -/

/-- os.path.splitext taken at its first component (src/flow_sync.py line
199): split at the last dot of the basename, ignoring leading dots. -/
def beforeLastDot : List Char → Option (List Char)
  | [] => none
  | c :: cs =>
    match beforeLastDot cs with
    | some p => some (c :: p)
    | none => if c = '.' then some [] else none

def splitextStem (f : String) : String :=
  let lead := f.data.takeWhile (fun c => c = '.')
  let rest := f.data.dropWhile (fun c => c = '.')
  match beforeLastDot rest with
  | some p => String.mk (lead ++ p)
  | none => f

/-- str.endswith, on the character lists. -/
def endsWithB (s suffix : String) : Bool := suffix.data.isSuffixOf s.data

/-- The watcher state: last observed mtime per absolute path
(FileWatcher.last_modified_times, src/flow_sync.py line 177). -/
abbrev WState := List (String × Rat)

/-- One push record of a poll: the path that triggered and what the push
attempt did. -/
abbrev PollEvent (α : Type) := String × PushOutcome × List (String × α)

/-- The trigger test of src/flow_sync.py line 194: the path is new to the
state, or the current mtime is strictly greater than the recorded one. -/
def trigCond (st : WState) (file_path : String) (mtime : Rat) : Bool :=
  match alGet st file_path with
  | none => true
  | some old => decide (old < mtime)

/-- FileWatcher.\_check\_for\_changes (src/flow_sync.py lines 184 to 203)
over one directory listing. `listing` is os.listdir paired with each
entry\u2019s current mtime, `contents` gives json.load of a path (none when
malformed), `remoteOk` the POST transport. Only names ending in .json are
considered; a file triggers when absent from the state or when its mtime
is strictly greater than the recorded one; the new mtime is recorded
before the push attempt, whose result is ignored. -/
def checkStep {α : Type} (bots : List Bot) (dir : String)
    (contents : String → Option α) (remoteOk : Bool) :
    List (String × Rat) → WState → WState × List (PollEvent α)
  | [], st => (st, [])
  | (fname, mtime) :: rest, st =>
    if endsWithB fname ".json" then
      let file_path := dir ++ "/" ++ fname
      if trigCond st file_path mtime then
        let st1 := alSet st file_path mtime
        let res := push_flow bots (splitextStem fname) (contents file_path) remoteOk
        let out := checkStep bots dir contents remoteOk rest st1
        (out.1, (file_path, res) :: out.2)
      else
        checkStep bots dir contents remoteOk rest st
    else
      checkStep bots dir contents remoteOk rest st

/-- The files of a listing that trigger, in order, tracking the state
updates exactly as the poll does. This does not depend on the push
results: the poll records the mtime first and ignores what the push
returns. -/
def triggeredFiles (dir : String) : List (String × Rat) → WState → List (String × Rat)
  | [], _ => []
  | (fname, mtime) :: rest, st =>
    if endsWithB fname ".json" then
      let file_path := dir ++ "/" ++ fname
      if trigCond st file_path mtime then
        (fname, mtime) :: triggeredFiles dir rest (alSet st file_path mtime)
      else
        triggeredFiles dir rest st
    else
      triggeredFiles dir rest st

/-! ## The pull schedule loop -/

/-- config.get pull_interval default (src/flow_sync.py line 40). -/
def defaultPullInterval : Nat := 10

/-- The fixed delay slept when an exception escapes the pull loop body
(src/flow_sync.py line 165). -/
def errorRetryDelay : Nat := 5

/-- One iteration of FlowSync.start\_pull\_schedule (src/flow_sync.py
lines 155 to 165): when not running the loop exits (none); otherwise it
sleeps the normal interval after a clean body, or the fixed error delay
when an exception escaped the body, and in both cases keeps running. -/
def pullLoopIter (running : Bool) (bodyRaised : Bool) (interval : Nat) : Option Nat :=
  if running then some (if bodyRaised then errorRetryDelay else interval) else none


/-! ## Watcher lemmas -/

theorem strAppend_left_cancel (d : String) {a b : String} (h : d ++ a = d ++ b) : a = b := by
  obtain ⟨da⟩ := a
  obtain ⟨db⟩ := b
  have hd : d.data ++ da = d.data ++ db := congrArg String.data h
  have : da = db := List.append_cancel_left hd
  rw [this]

theorem trigCond_some {st : WState} {p : String} {t old : Rat}
    (h : alGet st p = some old) : trigCond st p t = decide (old < t) := by
  unfold trigCond
  rw [h]

/-- Recorded mtimes survive a poll and never decrease. -/
theorem checkStep_mono {α : Type} (bots : List Bot) (dir : String)
    (contents : String → Option α) (rOk : Bool) :
    ∀ (l : List (String × Rat)) (st : WState) (p : String) (t : Rat),
      alGet st p = some t →
      ∃ t', alGet (checkStep bots dir contents rOk l st).1 p = some t' ∧ t ≤ t' := by
  intro l
  induction l with
  | nil => intro st p t h; exact ⟨t, h, le_refl t⟩
  | cons hd rest ih =>
    obtain ⟨fname, mtime⟩ := hd
    intro st p t h
    simp only [checkStep]
    by_cases hj : endsWithB fname ".json" = true
    · rw [if_pos hj]
      by_cases htr : trigCond st (dir ++ "/" ++ fname) mtime = true
      · rw [if_pos htr]
        dsimp only
        by_cases hp : dir ++ "/" ++ fname = p
        · subst hp
          have htlt : t < mtime := by
            rw [trigCond_some h] at htr
            exact of_decide_eq_true htr
          have h1 : alGet (alSet st (dir ++ "/" ++ fname) mtime) (dir ++ "/" ++ fname) = some mtime := by
            rw [alGet_alSet]
            simp
          obtain ⟨t', ht', hle⟩ := ih _ _ _ h1
          exact ⟨t', ht', le_trans (le_of_lt htlt) hle⟩
        · have h1 : alGet (alSet st (dir ++ "/" ++ fname) mtime) p = some t := by
            rw [alGet_alSet, if_neg hp]
            exact h
          exact ih _ _ _ h1
      · rw [if_neg htr]
        exact ih st p t h
    · rw [if_neg hj]
      exact ih st p t h

/-- A poll does not touch entries whose path is not in the listing. -/
theorem checkStep_not_listed {α : Type} (bots : List Bot) (dir : String)
    (contents : String → Option α) (rOk : Bool) :
    ∀ (l : List (String × Rat)) (st : WState) (p : String),
      (∀ e ∈ l, dir ++ "/" ++ e.1 ≠ p) →
      alGet (checkStep bots dir contents rOk l st).1 p = alGet st p := by
  intro l
  induction l with
  | nil => intro st p _; rfl
  | cons hd rest ih =>
    obtain ⟨fname, mtime⟩ := hd
    intro st p hne
    have hhd : dir ++ "/" ++ fname ≠ p := hne (fname, mtime) (by simp)
    have hrest : ∀ e ∈ rest, dir ++ "/" ++ e.1 ≠ p := fun e he => hne e (by simp [he])
    simp only [checkStep]
    by_cases hj : endsWithB fname ".json" = true
    · rw [if_pos hj]
      by_cases htr : trigCond st (dir ++ "/" ++ fname) mtime = true
      · rw [if_pos htr]
        dsimp only
        rw [ih _ _ hrest, alGet_alSet, if_neg hhd]
      · rw [if_neg htr]
        exact ih _ _ hrest
    · rw [if_neg hj]
      exact ih _ _ hrest

/-- After a poll over a listing with distinct names, every json file of the
listing has a recorded mtime at least its listed mtime. -/
theorem checkStep_recorded {α : Type} (bots : List Bot) (dir : String)
    (contents : String → Option α) (rOk : Bool) :
    ∀ (l : List (String × Rat)) (st : WState) (fname : String) (mtime : Rat),
      (l.map Prod.fst).Nodup → (fname, mtime) ∈ l → endsWithB fname ".json" = true →
      ∃ t', alGet (checkStep bots dir contents rOk l st).1 (dir ++ "/" ++ fname) = some t' ∧ mtime ≤ t' := by
  intro l
  induction l with
  | nil => intro st fname mtime _ hm; exact absurd hm (by simp)
  | cons hd rest ih =>
    obtain ⟨g, s⟩ := hd
    intro st fname mtime hnd hm hjson
    have hnd1 : (rest.map Prod.fst).Nodup := by
      simpa using hnd.of_cons
    rcases List.mem_cons.mp hm with heq | htail
    · -- the file is the head of the listing
      injection heq with h1 h2
      subst h1
      subst h2
      have hnotin : fname ∉ rest.map Prod.fst := by
        have h := hnd
        simp only [List.map_cons, List.nodup_cons] at h
        exact h.1
      have hrest : ∀ e ∈ rest, dir ++ "/" ++ e.1 ≠ dir ++ "/" ++ fname := by
        intro e he hcontra
        have : e.1 = fname := strAppend_left_cancel (dir ++ "/") hcontra
        exact hnotin (this ▸ List.mem_map_of_mem Prod.fst he)
      simp only [checkStep]
      rw [if_pos hjson]
      by_cases htr : trigCond st (dir ++ "/" ++ fname) mtime = true
      · rw [if_pos htr]
        dsimp only
        rw [checkStep_not_listed bots dir contents rOk rest _ _ hrest]
        rw [alGet_alSet]
        simp
      · rw [if_neg htr]
        rw [checkStep_not_listed bots dir contents rOk rest _ _ hrest]
        unfold trigCond at htr
        rcases hg : alGet st (dir ++ "/" ++ fname) with _ | old
        · rw [hg] at htr
          simp at htr
        · rw [hg] at htr
          refine ⟨old, rfl, ?_⟩
          have : ¬ (old < mtime) := by
            intro hlt
            exact htr (by simpa using hlt)
          exact le_of_not_lt this
    · -- the file is in the tail of the listing
      simp only [checkStep]
      by_cases hj : endsWithB g ".json" = true
      · rw [if_pos hj]
        by_cases htr : trigCond st (dir ++ "/" ++ g) s = true
        · rw [if_pos htr]
          dsimp only
          exact ih _ _ _ hnd1 htail hjson
        · rw [if_neg htr]
          exact ih _ _ _ hnd1 htail hjson
      · rw [if_neg hj]
        exact ih _ _ _ hnd1 htail hjson

/-- A poll over a listing in which every json file already has a recorded
mtime at least its listed mtime changes nothing and pushes nothing. -/
theorem checkStep_no_change {α : Type} (bots : List Bot) (dir : String)
    (contents : String → Option α) (rOk : Bool) :
    ∀ (l : List (String × Rat)) (st : WState),
      (∀ e ∈ l, endsWithB e.1 ".json" = true →
        ∃ t', alGet st (dir ++ "/" ++ e.1) = some t' ∧ e.2 ≤ t') →
      checkStep bots dir contents rOk l st = (st, []) := by
  intro l
  induction l with
  | nil => intro st _; rfl
  | cons hd rest ih =>
    obtain ⟨fname, mtime⟩ := hd
    intro st hrec
    have hrest : ∀ e ∈ rest, endsWithB e.1 ".json" = true →
        ∃ t', alGet st (dir ++ "/" ++ e.1) = some t' ∧ e.2 ≤ t' :=
      fun e he => hrec e (by simp [he])
    simp only [checkStep]
    by_cases hj : endsWithB fname ".json" = true
    · rw [if_pos hj]
      obtain ⟨t', ht', hle⟩ := hrec (fname, mtime) (by simp) hj
      have htr : trigCond st (dir ++ "/" ++ fname) mtime = false := by
        rw [trigCond_some ht']
        simpa using not_lt_of_le hle
      rw [htr]
      simp only [Bool.false_eq_true, if_false]
      exact ih st hrest
    · rw [if_neg hj]
      exact ih st hrest

/-- A second poll over the same listing (with distinct names) detects
nothing: the state is unchanged and no push attempt is made, whatever the
push results of the first poll were (the second poll may even run with a
different transport or file contents). -/
theorem checkStep_second_poll {α : Type} (bots bots2 : List Bot) (dir : String)
    (contents contents2 : String → Option α) (rOk rOk2 : Bool)
    (l : List (String × Rat)) (st : WState) (hnd : (l.map Prod.fst).Nodup) :
    checkStep bots2 dir contents2 rOk2 l (checkStep bots dir contents rOk l st).1
      = ((checkStep bots dir contents rOk l st).1, []) := by
  apply checkStep_no_change
  intro e he hj
  exact checkStep_recorded bots dir contents rOk l st e.1 e.2 hnd (by simpa using he) hj

/-- The push events of a poll are exactly one per triggered file, each
carrying that file\u2019s own push attempt: no file\u2019s outcome short
circuits the processing of the files after it. -/
theorem checkStep_events {α : Type} (bots : List Bot) (dir : String)
    (contents : String → Option α) (rOk : Bool) :
    ∀ (l : List (String × Rat)) (st : WState),
      (checkStep bots dir contents rOk l st).2 =
        (triggeredFiles dir l st).map
          (fun e => (dir ++ "/" ++ e.1,
            push_flow bots (splitextStem e.1) (contents (dir ++ "/" ++ e.1)) rOk)) := by
  intro l
  induction l with
  | nil => intro st; rfl
  | cons hd rest ih =>
    obtain ⟨fname, mtime⟩ := hd
    intro st
    simp only [checkStep, triggeredFiles]
    by_cases hj : endsWithB fname ".json" = true
    · rw [if_pos hj, if_pos hj]
      by_cases htr : trigCond st (dir ++ "/" ++ fname) mtime = true
      · rw [if_pos htr, if_pos htr]
        dsimp only
        rw [ih]
        rfl
      · rw [if_neg htr, if_neg htr]
        exact ih st
    · rw [if_neg hj, if_neg hj]
      exact ih st

theorem triggeredFiles_names_sub (dir : String) :
    ∀ (l : List (String × Rat)) (st : WState) (fname : String),
      fname ∉ l.map Prod.fst → fname ∉ (triggeredFiles dir l st).map Prod.fst := by
  intro l
  induction l with
  | nil => intro st fname _; simp [triggeredFiles]
  | cons hd rest ih =>
    obtain ⟨g, s⟩ := hd
    intro st fname hni
    have hg : g ≠ fname := by
      intro h
      exact hni (by simp [h])
    have hrest : fname ∉ rest.map Prod.fst := by
      intro h
      exact hni (by simp [h])
    simp only [triggeredFiles]
    by_cases hj : endsWithB g ".json" = true
    · rw [if_pos hj]
      by_cases htr : trigCond st (dir ++ "/" ++ g) s = true
      · rw [if_pos htr]
        intro hmem
        rcases List.mem_map.mp hmem with ⟨e, he, heq⟩
        rcases List.mem_cons.mp he with rfl | hetail
        · exact hg heq
        · exact ih _ fname hrest (List.mem_map.mpr ⟨e, hetail, heq⟩)
      · rw [if_neg htr]
        exact ih _ fname hrest
    · rw [if_neg hj]
      exact ih _ fname hrest

/-- Per poll, a json file of the listing triggers exactly once when it is
new or its mtime advanced, and zero times otherwise. -/
theorem triggeredFiles_count (dir : String) :
    ∀ (l : List (String × Rat)) (st : WState) (fname : String) (mtime : Rat),
      (l.map Prod.fst).Nodup → (fname, mtime) ∈ l → endsWithB fname ".json" = true →
      ((triggeredFiles dir l st).map Prod.fst).count fname =
        if trigCond st (dir ++ "/" ++ fname) mtime then 1 else 0 := by
  intro l
  induction l with
  | nil => intro st fname mtime _ hm; exact absurd hm (by simp)
  | cons hd rest ih =>
    obtain ⟨g, s⟩ := hd
    intro st fname mtime hnd hm hjson
    have hnd1 : (rest.map Prod.fst).Nodup := by simpa using hnd.of_cons
    rcases List.mem_cons.mp hm with heq | htail
    · injection heq with h1 h2
      subst h1
      subst h2
      have hnotin : fname ∉ rest.map Prod.fst := by
        have h := hnd
        simp only [List.map_cons, List.nodup_cons] at h
        exact h.1
      simp only [triggeredFiles]
      rw [if_pos hjson]
      by_cases htr : trigCond st (dir ++ "/" ++ fname) mtime = true
      · rw [if_pos htr, htr]
        have h0 : fname ∉ (triggeredFiles dir rest (alSet st (dir ++ "/" ++ fname) mtime)).map Prod.fst :=
          triggeredFiles_names_sub dir rest _ fname hnotin
        simp [List.count_cons, List.count_eq_zero.mpr h0]
      · rw [if_neg htr]
        rw [if_neg htr]
        have h0 : fname ∉ (triggeredFiles dir rest st).map Prod.fst :=
          triggeredFiles_names_sub dir rest _ fname hnotin
        exact List.count_eq_zero.mpr h0
    · have hfin : fname ∈ rest.map Prod.fst := List.mem_map_of_mem Prod.fst htail
      have hg : g ≠ fname := by
        intro h
        subst h
        exact (List.nodup_cons.mp (by simpa using hnd)).1 hfin
      simp only [triggeredFiles]
      by_cases hj : endsWithB g ".json" = true
      · rw [if_pos hj]
        by_cases htr : trigCond st (dir ++ "/" ++ g) s = true
        · rw [if_pos htr]
          have hpeq : trigCond (alSet st (dir ++ "/" ++ g) s) (dir ++ "/" ++ fname) mtime
              = trigCond st (dir ++ "/" ++ fname) mtime := by
            unfold trigCond
            rw [alGet_alSet, if_neg]
            intro hcontra
            exact hg (strAppend_left_cancel (dir ++ "/") hcontra)
          rw [← hpeq]
          have := ih (alSet st (dir ++ "/" ++ g) s) fname mtime hnd1 htail hjson
          simp only [List.map_cons, List.count_cons]
          rw [this, hpeq]
          have : (g == fname) = false := by
            simpa using hg
          simp [this, hpeq]
        · rw [if_neg htr]
          exact ih st fname mtime hnd1 htail hjson
      · rw [if_neg hj]
        exact ih st fname mtime hnd1 htail hjson


/-! ## Pull lemmas -/

theorem parseTs_ne_empty {s : String} {c : Civil} (h : parseTs s = some c) : s ≠ "" := by
  intro he
  subst he
  rw [show parseTs "" = none from rfl] at h
  exact Option.noConfusion h

/-- Unfolding of save\_flow when the timestamp string parses. -/
theorem save_flow_some {α : Type} (bots : List Bot) (bot_id : String) (flow_data : α)
    (lm : String) (now : Rat) (fs : FS α) (c : Civil) (h : parseTs lm = some c) :
    save_flow bots bot_id flow_data (some lm) now fs =
      ⟨alSet fs (inputPath (registryName bots bot_id)) ⟨some flow_data, ((civilEpoch c : Int) : Rat)⟩,
       true, [inputPath (registryName bots bot_id)]⟩ := by
  unfold save_flow
  dsimp only
  rw [if_neg (parseTs_ne_empty h), h]

/-- Every branch of save\_flow writes exactly the file at the registry
derived path. -/
theorem save_flow_writes {α : Type} (bots : List Bot) (bot_id : String) (flow_data : α)
    (lm : Option String) (now : Rat) (fs : FS α) :
    (save_flow bots bot_id flow_data lm now fs).writes = [inputPath (registryName bots bot_id)] := by
  unfold save_flow
  rcases lm with _ | lm
  · rfl
  · dsimp only
    split
    · rfl
    · split <;> rfl

/-- Unfolding of pull\_flow in the first sync case (no file at the path
computed from the response name). -/
theorem pull_flow_new {α : Type} (bots : List Bot) (bot_id : String) (r : RespData α)
    (now : Rat) (fs : FS α) (hfile : alGet fs (inputPath r.name) = none) :
    pull_flow bots bot_id (some r) now fs =
      ⟨(save_flow bots bot_id r.flow_settings (some r.gmt_modified) now fs).fs,
       (save_flow bots bot_id r.flow_settings (some r.gmt_modified) now fs).writes,
       some r.flow_settings⟩ := by
  simp only [pull_flow]
  rw [hfile]

/-- Unfolding of pull\_flow when a file exists at the path computed from
the response name: compare timestamps, write only when remote is newer. -/
theorem pull_flow_exists {α : Type} (bots : List Bot) (bot_id : String) (r : RespData α)
    (now : Rat) (fs : FS α) (fd : FileData α) (hfile : alGet fs (inputPath r.name) = some fd) :
    pull_flow bots bot_id (some r) now fs =
      if strLtB (formatEpoch fd.mtime) r.gmt_modified.data then
        ⟨(save_flow bots bot_id r.flow_settings (some r.gmt_modified) now fs).fs,
         (save_flow bots bot_id r.flow_settings (some r.gmt_modified) now fs).writes,
         some r.flow_settings⟩
      else ⟨fs, [], some r.flow_settings⟩ := by
  simp only [pull_flow]
  rw [hfile]

/-! ## Claim theorems: the puller -/

/-- Claim C1 (amended): for every pull on a bot whose local file exists at
the path computed from the response name, when additionally the registry
name for the pulled bot id equals the response name and gmt_modified is a
well-formed timestamp, the local mtime is formatted at second resolution
and compared lexicographically with gmt_modified; if remote is strictly
greater, the file content is overwritten with flow_settings and its mtime
reset to the parsed gmt_modified, and otherwise content and mtime are left
unchanged. (The registry name condition is forced by C1_counterexample:
the write path is derived from the registry, the checked path from the
response.) -/
theorem C1_pull_compare {α : Type} (bots : List Bot) (bot_id : String) (r : RespData α)
    (now : Rat) (fs : FS α) (fd : FileData α) (c : Civil)
    (hname : registryName bots bot_id = r.name)
    (hfile : alGet fs (inputPath r.name) = some fd)
    (hts : parseTs r.gmt_modified = some c)
    (_hrange : epochInRange fd.mtime) :
    (strLtB (formatEpoch fd.mtime) r.gmt_modified.data = true →
      (pull_flow bots bot_id (some r) now fs).fs =
        alSet fs (inputPath r.name) ⟨some r.flow_settings, ((civilEpoch c : Int) : Rat)⟩ ∧
      (pull_flow bots bot_id (some r) now fs).writes = [inputPath r.name]) ∧
    (strLtB (formatEpoch fd.mtime) r.gmt_modified.data = false →
      (pull_flow bots bot_id (some r) now fs).fs = fs ∧
      (pull_flow bots bot_id (some r) now fs).writes = []) := by
  have hsave := save_flow_some bots bot_id r.flow_settings r.gmt_modified now fs c hts
  rw [hname] at hsave
  rw [pull_flow_exists bots bot_id r now fs fd hfile]
  constructor
  · intro hlt
    rw [hlt, if_pos rfl, hsave]
    exact ⟨rfl, rfl⟩
  · intro hlt
    rw [hlt]
    simp only [Bool.false_eq_true, if_false]
    constructor <;> trivial

/-- Claim C2 (amended): for every pull on a bot with no local file at the
target path, when additionally the registry name for the pulled bot id
equals the response name and gmt_modified is well-formed, pull creates the
target file with content flow_settings and mtime the parsed gmt_modified,
unconditionally. (The registry name condition is forced by
C2_counterexample.) -/
theorem C2_first_sync {α : Type} (bots : List Bot) (bot_id : String) (r : RespData α)
    (now : Rat) (fs : FS α) (c : Civil)
    (hname : registryName bots bot_id = r.name)
    (hfile : alGet fs (inputPath r.name) = none)
    (hts : parseTs r.gmt_modified = some c) :
    (pull_flow bots bot_id (some r) now fs).fs =
      alSet fs (inputPath r.name) ⟨some r.flow_settings, ((civilEpoch c : Int) : Rat)⟩ ∧
    (pull_flow bots bot_id (some r) now fs).writes = [inputPath r.name] ∧
    (pull_flow bots bot_id (some r) now fs).ret = some r.flow_settings := by
  have hsave := save_flow_some bots bot_id r.flow_settings r.gmt_modified now fs c hts
  rw [hname] at hsave
  rw [pull_flow_new bots bot_id r now fs hfile, hsave]
  exact ⟨rfl, rfl, rfl⟩

/-- Claim C4 (amended): pull is idempotent under unchanged remote data,
when the registry name for the pulled bot id equals the response name and
gmt_modified is well-formed: the second of two consecutive pulls with the
same response performs no write and leaves the filesystem exactly as the
first left it, because the first pull sets the local mtime to the parsed
gmt_modified and the read side formats it back to the identical string
(formatEpoch_parseTs), so the strict comparison fails. (The registry name
condition is forced by C4_counterexample.) -/
theorem C4_pull_idempotent {α : Type} (bots : List Bot) (bot_id : String) (r : RespData α)
    (now1 now2 : Rat) (fs : FS α) (c : Civil)
    (hname : registryName bots bot_id = r.name)
    (hts : parseTs r.gmt_modified = some c) :
    (pull_flow bots bot_id (some r) now2 (pull_flow bots bot_id (some r) now1 fs).fs).writes = [] ∧
    (pull_flow bots bot_id (some r) now2 (pull_flow bots bot_id (some r) now1 fs).fs).fs =
      (pull_flow bots bot_id (some r) now1 fs).fs := by
  have hsave := save_flow_some bots bot_id r.flow_settings r.gmt_modified now1 fs c hts
  rw [hname] at hsave
  have hfmt : formatEpoch ((civilEpoch c : Int) : Rat) = r.gmt_modified.data :=
    formatEpoch_parseTs r.gmt_modified c hts
  -- after any pull that saved, a second pull compares equal strings
  have hsecond : ∀ fs1 : FS α,
      alGet fs1 (inputPath r.name) = some ⟨some r.flow_settings, ((civilEpoch c : Int) : Rat)⟩ →
      (pull_flow bots bot_id (some r) now2 fs1).writes = [] ∧
      (pull_flow bots bot_id (some r) now2 fs1).fs = fs1 := by
    intro fs1 h1
    rw [pull_flow_exists bots bot_id r now2 fs1 _ h1]
    have hcmp : strLtB (formatEpoch ((civilEpoch c : Int) : Rat)) r.gmt_modified.data = false := by
      rw [hfmt]
      exact strLtB_irrefl r.gmt_modified.data
    rw [hcmp]
    simp only [Bool.false_eq_true, if_false]
    constructor <;> trivial
  rcases hfile : alGet fs (inputPath r.name) with _ | fd
  · -- first sync: the first pull saves
    have h1 : (pull_flow bots bot_id (some r) now1 fs).fs =
        alSet fs (inputPath r.name) ⟨some r.flow_settings, ((civilEpoch c : Int) : Rat)⟩ := by
      rw [pull_flow_new bots bot_id r now1 fs hfile, hsave]
    rw [h1]
    exact hsecond _ (by rw [alGet_alSet]; simp)
  · rw [pull_flow_exists bots bot_id r now1 fs fd hfile]
    by_cases hcmp1 : strLtB (formatEpoch fd.mtime) r.gmt_modified.data = true
    · -- remote newer: the first pull saves
      rw [hcmp1, if_pos rfl, hsave]
      exact hsecond _ (by rw [alGet_alSet]; simp)
    · -- remote not newer: the first pull changes nothing, and neither
      -- does the second for the same reason
      rw [Bool.not_eq_true] at hcmp1
      rw [hcmp1]
      simp only [Bool.false_eq_true, if_false]
      rw [pull_flow_exists bots bot_id r now2 fs fd hfile, hcmp1]
      simp only [Bool.false_eq_true, if_false]
      constructor <;> trivial

theorem inputPath_inj {a b : String} (h : inputPath a = inputPath b) : a = b := by
  unfold inputPath at h
  have hd : ((INPUT_DIR ++ "/").data ++ a.data) ++ ".json".data
      = ((INPUT_DIR ++ "/").data ++ b.data) ++ ".json".data := congrArg String.data h
  have h1 : (INPUT_DIR ++ "/").data ++ a.data = (INPUT_DIR ++ "/").data ++ b.data :=
    List.append_cancel_right hd
  have h2 : a.data = b.data := List.append_cancel_left h1
  obtain ⟨da⟩ := a
  obtain ⟨db⟩ := b
  exact congrArg String.mk h2

/-- Claim C5 (amended): every write a pull performs, in the first sync
case and in the overwrite case alike, goes to the single path derived
from the registry name for the pulled bot id (falling back to the id
itself), while the existence check used the path derived from the
response name; in the first sync case and in the remote-newer overwrite
case that write does happen; and the written path is the checked path
exactly when the two names agree. (Forced by C5_counterexample: the code
computes the two paths independently.) -/
theorem C5_write_path {α : Type} (bots : List Bot) (bot_id : String) (r : RespData α)
    (now : Rat) (fs : FS α) :
    ((pull_flow bots bot_id (some r) now fs).writes = [] ∨
     (pull_flow bots bot_id (some r) now fs).writes = [inputPath (registryName bots bot_id)]) ∧
    (alGet fs (inputPath r.name) = none →
      (pull_flow bots bot_id (some r) now fs).writes = [inputPath (registryName bots bot_id)]) ∧
    (∀ fd, alGet fs (inputPath r.name) = some fd →
      strLtB (formatEpoch fd.mtime) r.gmt_modified.data = true →
      (pull_flow bots bot_id (some r) now fs).writes = [inputPath (registryName bots bot_id)]) ∧
    (inputPath (registryName bots bot_id) = inputPath r.name ↔ registryName bots bot_id = r.name) := by
  have hiff : inputPath (registryName bots bot_id) = inputPath r.name ↔
      registryName bots bot_id = r.name :=
    ⟨inputPath_inj, fun h => by rw [h]⟩
  rcases hfile : alGet fs (inputPath r.name) with _ | fd
  · -- first sync: the save runs and writes the registry derived path
    have hw : (pull_flow bots bot_id (some r) now fs).writes
        = [inputPath (registryName bots bot_id)] := by
      rw [pull_flow_new bots bot_id r now fs hfile]
      exact save_flow_writes bots bot_id r.flow_settings (some r.gmt_modified) now fs
    refine ⟨Or.inr hw, fun _ => hw, ?_, hiff⟩
    intro fd hfd
    exact absurd hfd (by simp)
  · -- a file exists at the checked path: compare, then maybe overwrite
    rw [pull_flow_exists bots bot_id r now fs fd hfile]
    by_cases hcmp : strLtB (formatEpoch fd.mtime) r.gmt_modified.data = true
    · -- remote newer: the save runs and writes the registry derived path
      rw [hcmp, if_pos rfl]
      have hw := save_flow_writes bots bot_id r.flow_settings (some r.gmt_modified) now fs
      refine ⟨Or.inr hw, fun h => hw, fun fd' _ _ => hw, hiff⟩
    · -- remote not newer: no write at all
      rw [Bool.not_eq_true] at hcmp
      rw [hcmp]
      simp only [Bool.false_eq_true, if_false]
      refine ⟨Or.inl trivial, ?_, ?_, hiff⟩
      · intro h
        exact absurd h (by simp)
      · intro fd' hfd' hlt'
        obtain rfl : fd = fd' := by injection hfd'
        rw [hcmp] at hlt'
        exact absurd hlt' (by simp)


/-! ## Claim theorems: the watcher and the loops -/

/-- Claim C3: per poll, the push events are exactly one per triggered
file, each with its own push attempt; a json file of a listing with
distinct names triggers exactly once when it is new to the state or its
mtime advanced and zero times otherwise; and a second poll over the same
listing detects nothing and pushes nothing, whatever the first poll
pushes returned (the second poll here even runs with a different
transport and different file contents, so a failed push is not retried
until the mtime advances). -/
theorem C3_push_once_per_advance {α : Type} (bots : List Bot) (dir : String)
    (contents contents2 : String → Option α) (rOk rOk2 : Bool)
    (l : List (String × Rat)) (st : WState) (fname : String) (mtime : Rat)
    (hnd : (l.map Prod.fst).Nodup)
    (hm : (fname, mtime) ∈ l)
    (hjson : endsWithB fname ".json" = true) :
    ((checkStep bots dir contents rOk l st).2 =
      (triggeredFiles dir l st).map
        (fun e => (dir ++ "/" ++ e.1,
          push_flow bots (splitextStem e.1) (contents (dir ++ "/" ++ e.1)) rOk))) ∧
    (((triggeredFiles dir l st).map Prod.fst).count fname =
      if trigCond st (dir ++ "/" ++ fname) mtime then 1 else 0) ∧
    (checkStep bots dir contents2 rOk2 l (checkStep bots dir contents rOk l st).1 =
      ((checkStep bots dir contents rOk l st).1, [])) :=
  ⟨checkStep_events bots dir contents rOk l st,
   triggeredFiles_count dir l st fname mtime hnd hm hjson,
   checkStep_second_poll bots bots dir contents contents2 rOk rOk2 l st hnd⟩

/-- Claim C10: WatchState keys are never removed and recorded mtimes never
decrease across a poll; and a file recreated with an mtime at most the
recorded one triggers no push in that poll. -/
theorem C10_watchstate_grows {α : Type} (bots : List Bot) (dir : String)
    (contents : String → Option α) (rOk : Bool) (l : List (String × Rat)) (st : WState)
    (hnd : (l.map Prod.fst).Nodup) :
    (∀ p t0, alGet st p = some t0 →
      ∃ t', alGet (checkStep bots dir contents rOk l st).1 p = some t' ∧ t0 ≤ t') ∧
    (∀ fname mtime t0, (fname, mtime) ∈ l → endsWithB fname ".json" = true →
      alGet st (dir ++ "/" ++ fname) = some t0 → mtime ≤ t0 →
      (dir ++ "/" ++ fname) ∉ ((checkStep bots dir contents rOk l st).2).map Prod.fst) := by
  constructor
  · intro p t0 h
    exact checkStep_mono bots dir contents rOk l st p t0 h
  · intro fname mtime t0 hm hjson hrec hle hmem
    rw [checkStep_events bots dir contents rOk l st] at hmem
    rw [List.map_map] at hmem
    rcases List.mem_map.mp hmem with ⟨e, he, heq⟩
    have hename : e.1 = fname := strAppend_left_cancel (dir ++ "/") heq
    have hfmem : fname ∈ (triggeredFiles dir l st).map Prod.fst :=
      hename ▸ List.mem_map_of_mem Prod.fst he
    have hcount := triggeredFiles_count dir l st fname mtime hnd hm hjson
    have htc : trigCond st (dir ++ "/" ++ fname) mtime = false := by
      rw [trigCond_some hrec]
      simpa using not_lt_of_le hle
    rw [htc] at hcount
    simp only [Bool.false_eq_true, if_false] at hcount
    exact (List.count_eq_zero.mp hcount) hfmem

/-- Claim C7 counterexample: the fixed error retry delay (5 seconds,
src/flow_sync.py line 165) is not longer than the configured default pull
interval (10 seconds, line 40); the claim asserts the retry delay is
longer than the normal polling interval. -/
theorem C7_counterexample : ¬ (defaultPullInterval < errorRetryDelay) := by decide

/-- Claim C7 (amended): when an exception escapes the pull loop body the
loop keeps running and retries after the fixed 5 second delay, which is
shorter than (half of) the default 10 second pull interval, not longer. -/
theorem C7_error_retry (interval : Nat) :
    pullLoopIter true true interval = some errorRetryDelay ∧
    (pullLoopIter true true interval).isSome = true ∧
    errorRetryDelay < defaultPullInterval :=
  ⟨rfl, rfl, by decide⟩

/-- Claim C8: a push whose bot name matches no registry entry fails with
the unknown bot outcome, returns failure, and issues no POST; and the
watcher poll still gives every triggered file its own push attempt, so
the loop continues with the remaining files. -/
theorem C8_unknown_bot {α : Type} (bots : List Bot) (bot_name : String)
    (content : Option α) (rOk : Bool)
    (hfind : bots.find? (fun b => b.name == bot_name) = none) :
    push_flow bots bot_name content rOk = (.unknownBot, []) ∧
    (push_flow bots bot_name content rOk).1.toBool = false ∧
    (∀ (dir : String) (contents : String → Option α) (rOk2 : Bool)
        (l : List (String × Rat)) (st : WState),
      (checkStep bots dir contents rOk2 l st).2 =
        (triggeredFiles dir l st).map
          (fun e => (dir ++ "/" ++ e.1,
            push_flow bots (splitextStem e.1) (contents (dir ++ "/" ++ e.1)) rOk2))) := by
  have hp : push_flow bots bot_name content rOk = (.unknownBot, []) := by
    unfold push_flow resolveBotId
    rw [hfind]
  exact ⟨hp, by rw [hp]; rfl, fun dir contents rOk2 l st => checkStep_events bots dir contents rOk2 l st⟩

/-- Claim C9 counterexample: a watched file whose content is malformed
JSON but whose name matches no registry entry fails with the unknown bot
outcome, not InvalidLocalDocument: the registry is consulted before the
file is read. -/
theorem C9_counterexample :
    (push_flow ([] : List Bot) "orphan" (none : Option Nat) true).1 ≠ PushOutcome.invalidJson ∧
    (push_flow ([] : List Bot) "orphan" (none : Option Nat) true).1 = PushOutcome.unknownBot := by
  decide

/-- Claim C9 (amended): a watched file with malformed JSON content whose
bot name resolves in the registry (to a non empty id) fails with the
invalid document outcome, returns failure, and issues no POST; the
watcher poll still gives every triggered file its own push attempt and
the process carries on. (The registry condition is forced by
C9_counterexample: the registry is consulted before the file is read.) -/
theorem C9_invalid_json {α : Type} (bots : List Bot) (bot_name : String) (rOk : Bool)
    (bid : String)
    (hres : resolveBotId bots bot_name = some bid) (hbid : bid ≠ "") :
    push_flow bots bot_name (none : Option α) rOk = (.invalidJson, []) ∧
    (push_flow bots bot_name (none : Option α) rOk).1.toBool = false ∧
    (∀ (dir : String) (contents : String → Option α) (rOk2 : Bool)
        (l : List (String × Rat)) (st : WState),
      (checkStep bots dir contents rOk2 l st).2 =
        (triggeredFiles dir l st).map
          (fun e => (dir ++ "/" ++ e.1,
            push_flow bots (splitextStem e.1) (contents (dir ++ "/" ++ e.1)) rOk2))) := by
  have hp : push_flow bots bot_name (none : Option α) rOk = (.invalidJson, []) := by
    unfold push_flow
    rw [hres]
    dsimp only
    rw [if_neg hbid]
  exact ⟨hp, by rw [hp]; rfl, fun dir contents rOk2 l st => checkStep_events bots dir contents rOk2 l st⟩


/-! ## Counterexamples

The registry name for a bot id and the name field of the response are
computed independently (src/flow_sync.py line 71 versus line 101); a
registry whose name for the pulled bot differs from the name the server
returns separates the checked path from the written path. -/

def exBots : List Bot := [⟨"b1", "A"⟩]

def exResp : RespData Nat := ⟨42, "B", "2024-01-02 00:00:00"⟩

def exFs : FS Nat := [("flow/input/B.json", ⟨some 7, ((1704067200 : Int) : Rat)⟩)]

/-- Claim C1 counterexample: the local file B.json (the path computed
from the response name) exists and the remote timestamp is strictly newer
than its formatted mtime (2024-01-01 00:00:00), yet the pull leaves
B.json entirely unchanged: the save step recomputed the name from the
registry by bot id and wrote A.json instead. -/
theorem C1_counterexample :
    strLtB (formatEpoch ((1704067200 : Int) : Rat)) "2024-01-02 00:00:00".data = true ∧
    alGet (pull_flow exBots "b1" (some exResp) 0 exFs).fs "flow/input/B.json"
      = alGet exFs "flow/input/B.json" := by
  decide

/-- Claim C2 counterexample: no file exists at the target path computed
from the response name B and the pull runs its first sync save (it even
returns the document), yet afterwards there is still no file at the
target path: the save wrote the registry derived path A.json. -/
theorem C2_counterexample :
    (pull_flow exBots "b1" (some exResp) 0 ([] : FS Nat)).ret = some 42 ∧
    alGet (pull_flow exBots "b1" (some exResp) 0 ([] : FS Nat)).fs (inputPath exResp.name)
      = none := by
  decide

/-- Claim C4 counterexample: with registry name A and response name B, the
second of two consecutive pulls with identical remote data still performs
a write (the existence check at B.json keeps failing while the writes go
to A.json), refuting the claim that the second call produces no writes. -/
theorem C4_counterexample :
    (pull_flow exBots "b1" (some exResp) 0
      (pull_flow exBots "b1" (some exResp) 0 ([] : FS Nat)).fs).writes ≠ [] := by
  decide

/-- Claim C5 counterexample: the existence check used the target path
computed from the response name B, but the write went to the path
computed from the registry name A: check and write refer to different
files. -/
theorem C5_counterexample :
    (pull_flow exBots "b1" (some exResp) 0 ([] : FS Nat)).writes = ["flow/input/A.json"] ∧
    ("flow/input/A.json" : String) ≠ inputPath exResp.name := by
  decide

/-! ## Witnesses -/

def wBots : List Bot := [⟨"b1", "assistant"⟩]

def wResp : RespData Nat := ⟨42, "assistant", "2024-01-01 10:00:00"⟩

def wCiv : Civil := ⟨2024, 1, 1, 10, 0, 0⟩

def wFd : FileData Nat := ⟨some 7, ((1704099600 : Int) : Rat)⟩

def wFs : FS Nat := [(inputPath "assistant", wFd)]

theorem C1_witness :
    (registryName wBots "b1" = wResp.name ∧
     alGet wFs (inputPath wResp.name) = some wFd ∧
     parseTs wResp.gmt_modified = some wCiv ∧
     epochInRange wFd.mtime) ∧
    ((strLtB (formatEpoch wFd.mtime) wResp.gmt_modified.data = true →
        (pull_flow wBots "b1" (some wResp) 0 wFs).fs =
          alSet wFs (inputPath wResp.name) ⟨some wResp.flow_settings, ((civilEpoch wCiv : Int) : Rat)⟩ ∧
        (pull_flow wBots "b1" (some wResp) 0 wFs).writes = [inputPath wResp.name]) ∧
     (strLtB (formatEpoch wFd.mtime) wResp.gmt_modified.data = false →
        (pull_flow wBots "b1" (some wResp) 0 wFs).fs = wFs ∧
        (pull_flow wBots "b1" (some wResp) 0 wFs).writes = [])) :=
  ⟨⟨by decide, by decide, by decide, by decide⟩,
   C1_pull_compare wBots "b1" wResp 0 wFs wFd wCiv (by decide) (by decide) (by decide) (by decide)⟩

theorem C2_witness :
    (registryName wBots "b1" = wResp.name ∧
     alGet ([] : FS Nat) (inputPath wResp.name) = none ∧
     parseTs wResp.gmt_modified = some wCiv) ∧
    ((pull_flow wBots "b1" (some wResp) 0 ([] : FS Nat)).fs =
       alSet ([] : FS Nat) (inputPath wResp.name) ⟨some wResp.flow_settings, ((civilEpoch wCiv : Int) : Rat)⟩ ∧
     (pull_flow wBots "b1" (some wResp) 0 ([] : FS Nat)).writes = [inputPath wResp.name] ∧
     (pull_flow wBots "b1" (some wResp) 0 ([] : FS Nat)).ret = some wResp.flow_settings) :=
  ⟨⟨by decide, by decide, by decide⟩,
   C2_first_sync wBots "b1" wResp 0 [] wCiv (by decide) (by decide) (by decide)⟩

theorem C4_witness :
    (registryName wBots "b1" = wResp.name ∧ parseTs wResp.gmt_modified = some wCiv) ∧
    ((pull_flow wBots "b1" (some wResp) 1 (pull_flow wBots "b1" (some wResp) 0 ([] : FS Nat)).fs).writes = [] ∧
     (pull_flow wBots "b1" (some wResp) 1 (pull_flow wBots "b1" (some wResp) 0 ([] : FS Nat)).fs).fs =
       (pull_flow wBots "b1" (some wResp) 0 ([] : FS Nat)).fs) :=
  ⟨⟨by decide, by decide⟩,
   C4_pull_idempotent wBots "b1" wResp 0 1 [] wCiv (by decide) (by decide)⟩

theorem C5_witness :
    (alGet wFs (inputPath wResp.name) = some wFd ∧
     strLtB (formatEpoch wFd.mtime) wResp.gmt_modified.data = true ∧
     alGet ([] : FS Nat) (inputPath wResp.name) = none) ∧
    ((pull_flow wBots "b1" (some wResp) 0 wFs).writes = [inputPath (registryName wBots "b1")] ∧
     (pull_flow wBots "b1" (some wResp) 0 ([] : FS Nat)).writes = [inputPath (registryName wBots "b1")]) :=
  ⟨⟨by decide, by decide, by decide⟩,
   (C5_write_path wBots "b1" wResp 0 wFs).2.2.1 wFd (by decide) (by decide),
   (C5_write_path wBots "b1" wResp 0 ([] : FS Nat)).2.1 (by decide)⟩

theorem C3_witness :
    ((([("assistant.json", (100 : Rat))].map Prod.fst).Nodup) ∧
     ("assistant.json", (100 : Rat)) ∈ [("assistant.json", (100 : Rat))] ∧
     endsWithB "assistant.json" ".json" = true) ∧
    (((checkStep wBots OUTPUT_DIR (fun _ => some (5 : Nat)) true [("assistant.json", (100 : Rat))] []).2 =
        (triggeredFiles OUTPUT_DIR [("assistant.json", (100 : Rat))] []).map
          (fun e => (OUTPUT_DIR ++ "/" ++ e.1,
            push_flow wBots (splitextStem e.1) (some (5 : Nat)) true))) ∧
     (((triggeredFiles OUTPUT_DIR [("assistant.json", (100 : Rat))] []).map Prod.fst).count "assistant.json" =
        if trigCond [] (OUTPUT_DIR ++ "/" ++ "assistant.json") 100 then 1 else 0) ∧
     (checkStep wBots OUTPUT_DIR (fun _ => (none : Option Nat)) false [("assistant.json", (100 : Rat))]
         (checkStep wBots OUTPUT_DIR (fun _ => some (5 : Nat)) true [("assistant.json", (100 : Rat))] []).1 =
       ((checkStep wBots OUTPUT_DIR (fun _ => some (5 : Nat)) true [("assistant.json", (100 : Rat))] []).1, []))) :=
  ⟨⟨by decide, by decide, by decide⟩,
   C3_push_once_per_advance wBots OUTPUT_DIR (fun _ => some 5) (fun _ => none) true false
     [("assistant.json", (100 : Rat))] [] "assistant.json" 100 (by decide) (by decide) (by decide)⟩

def w10St : WState := [("flow/output/assistant.json", (100 : Rat))]

theorem C10_witness :
    (([("assistant.json", (50 : Rat))].map Prod.fst).Nodup) ∧
    ((∀ p t0, alGet w10St p = some t0 →
       ∃ t', alGet (checkStep wBots OUTPUT_DIR (fun _ => some (5 : Nat)) true
         [("assistant.json", (50 : Rat))] w10St).1 p = some t' ∧ t0 ≤ t') ∧
     (∀ fname mtime t0, (fname, mtime) ∈ [("assistant.json", (50 : Rat))] →
       endsWithB fname ".json" = true →
       alGet w10St (OUTPUT_DIR ++ "/" ++ fname) = some t0 → mtime ≤ t0 →
       (OUTPUT_DIR ++ "/" ++ fname) ∉
         ((checkStep wBots OUTPUT_DIR (fun _ => some (5 : Nat)) true
           [("assistant.json", (50 : Rat))] w10St).2).map Prod.fst)) :=
  ⟨by decide,
   C10_watchstate_grows wBots OUTPUT_DIR (fun _ => some 5) true
     [("assistant.json", (50 : Rat))] w10St (by decide)⟩

theorem C8_witness :
    (wBots.find? (fun b => b.name == "stranger") = none) ∧
    (push_flow wBots "stranger" (some (3 : Nat)) true = (.unknownBot, []) ∧
     (push_flow wBots "stranger" (some (3 : Nat)) true).1.toBool = false ∧
     (∀ (dir : String) (contents : String → Option Nat) (rOk2 : Bool)
         (l : List (String × Rat)) (st : WState),
       (checkStep wBots dir contents rOk2 l st).2 =
         (triggeredFiles dir l st).map
           (fun e => (dir ++ "/" ++ e.1,
             push_flow wBots (splitextStem e.1) (contents (dir ++ "/" ++ e.1)) rOk2)))) :=
  ⟨by decide, C8_unknown_bot wBots "stranger" (some 3) true (by decide)⟩

theorem C9_witness :
    (resolveBotId wBots "assistant" = some "b1" ∧ ("b1" : String) ≠ "") ∧
    (push_flow wBots "assistant" (none : Option Nat) true = (.invalidJson, []) ∧
     (push_flow wBots "assistant" (none : Option Nat) true).1.toBool = false ∧
     (∀ (dir : String) (contents : String → Option Nat) (rOk2 : Bool)
         (l : List (String × Rat)) (st : WState),
       (checkStep wBots dir contents rOk2 l st).2 =
         (triggeredFiles dir l st).map
           (fun e => (dir ++ "/" ++ e.1,
             push_flow wBots (splitextStem e.1) (contents (dir ++ "/" ++ e.1)) rOk2)))) :=
  ⟨⟨by decide, by decide⟩, C9_invalid_json wBots "assistant" true "b1" (by decide) (by decide)⟩


/-! ## Claim C6: write atomicity

FlowSync.\_save\_flow writes with open(file_path, mode w) followed by
json.dump (src/flow_sync.py lines 73 to 74): the write happens in place
on the final path, with no temporary file and rename. Opening with mode w
truncates the file, so the on-disk content passes through the empty state
before the serialized document lands. `saveWriteTrace` lists the
observable on-disk contents of the target file around one save of a file
that previously held `prev`. `Jdoc` models the opaque JSON documents,
`dumpJ` their serialization (whitespace of the indent option abstracted
away), and `jsonOk` a json.load style well-formedness check (it accepts a
mild superset of JSON, which only strengthens the emptiness result and is
irrelevant for serialized documents). -/

inductive Jdoc where
  | jnull : Jdoc
  | jbool (b : Bool) : Jdoc
  | jnum (n : Nat) : Jdoc
  | jstr (s : List Char) : Jdoc
  | jarr (xs : List Jdoc) : Jdoc
  | jobj (kvs : List (List Char × Jdoc)) : Jdoc
deriving Repr

def natChars : Nat → Nat → List Char
  | 0, _ => []
  | fuel+1, n => if n < 10 then [natToDigit n] else natChars fuel (n / 10) ++ [natToDigit (n % 10)]

def numChars (n : Nat) : List Char := natChars (n + 1) n

def escChar (c : Char) : List Char := if c = '"' || c = '\\' then ['\\', c] else [c]

def escStr : List Char → List Char
  | [] => []
  | c :: cs => escChar c ++ escStr cs

mutual

def dumpJ : Jdoc → List Char
  | .jnull => ['n', 'u', 'l', 'l']
  | .jbool true => ['t', 'r', 'u', 'e']
  | .jbool false => ['f', 'a', 'l', 's', 'e']
  | .jnum n => numChars n
  | .jstr s => '"' :: (escStr s ++ ['"'])
  | .jarr xs => '[' :: (dumpArr xs ++ [']'])
  | .jobj kvs => '\x7b' :: (dumpObj kvs ++ ['\x7d'])

def dumpArr : List Jdoc → List Char
  | [] => []
  | [x] => dumpJ x
  | x :: y :: xs => dumpJ x ++ ',' :: dumpArr (y :: xs)

def dumpObj : List (List Char × Jdoc) → List Char
  | [] => []
  | [(k, v)] => '"' :: (escStr k ++ '"' :: ':' :: dumpJ v)
  | (k, v) :: e :: kvs => ('"' :: (escStr k ++ '"' :: ':' :: dumpJ v)) ++ ',' :: dumpObj (e :: kvs)

end

/-- Consume the remainder of a JSON string after its opening quote. -/
def parseStrRest : List Char → Option (List Char)
  | [] => none
  | c :: r =>
    if c = '\\' then
      match r with
      | [] => none
      | _ :: r2 => parseStrRest r2
    else if c = '"' then some r
    else parseStrRest r

mutual

def parseVF : Nat → List Char → Option (List Char)
  | 0, _ => none
  | _+1, 'n' :: 'u' :: 'l' :: 'l' :: r => some r
  | _+1, 't' :: 'r' :: 'u' :: 'e' :: r => some r
  | _+1, 'f' :: 'a' :: 'l' :: 's' :: 'e' :: r => some r
  | _+1, '"' :: r => parseStrRest r
  | fuel+1, '[' :: r => parseArrF fuel r
  | fuel+1, '\x7b' :: r => parseObjF fuel r
  | _+1, c :: r => if isDigitB c then some (r.dropWhile isDigitB) else none
  | _+1, [] => none

def parseArrF : Nat → List Char → Option (List Char)
  | 0, _ => none
  | fuel+1, r =>
    match parseVF fuel r with
    | some (',' :: r2) => parseArrF fuel r2
    | some (']' :: r2) => some r2
    | some _ => none
    | none =>
      match r with
      | ']' :: r2 => some r2
      | _ => none

def parseObjF : Nat → List Char → Option (List Char)
  | 0, _ => none
  | fuel+1, r =>
    match r with
    | '"' :: r1 =>
      (match parseStrRest r1 with
      | some (':' :: r2) =>
        (match parseVF fuel r2 with
        | some (',' :: r3) => parseObjF fuel r3
        | some ('\x7d' :: r3) => some r3
        | _ => none)
      | _ => none)
    | '\x7d' :: r2 => some r2
    | _ => none

end

/-- Whether a text is a complete JSON document (one value, nothing after
it); the fuel is generous for any accepting run on a serialized value. -/
def jsonOk (s : List Char) : Bool :=
  match parseVF (2 * s.length + 1) s with
  | some [] => true
  | _ => false

/-- The observable on-disk contents of the target file around one
\_save\_flow write over previous content `prev`: before the open, after
the truncating open, and after json.dump finishes. There is no temporary
file: all three states live at the final path. -/
def saveWriteTrace (prev : List Char) (d : Jdoc) : List (List Char) :=
  [prev, [], dumpJ d]


/-! ### The serializer produces well-formed JSON -/

theorem natToDigit_isDigit (k : Nat) (h : k ≤ 9) : isDigitB (natToDigit k) = true := by
  interval_cases k <;> decide

theorem natChars_digits : ∀ (fuel n : Nat), ∀ c ∈ natChars fuel n, isDigitB c = true := by
  intro fuel
  induction fuel with
  | zero =>
    intro n c hc
    simp [natChars] at hc
  | succ fuel ih =>
    intro n c hc
    simp only [natChars] at hc
    by_cases h : n < 10
    · rw [if_pos h] at hc
      simp only [List.mem_singleton] at hc
      subst hc
      exact natToDigit_isDigit n (by omega)
    · rw [if_neg h] at hc
      rcases List.mem_append.mp hc with h1 | h2
      · exact ih (n / 10) c h1
      · simp only [List.mem_singleton] at h2
        subst h2
        exact natToDigit_isDigit (n % 10) (by omega)

theorem numChars_ne_nil (n : Nat) : numChars n ≠ [] := by
  unfold numChars natChars
  by_cases h : n < 10
  · rw [if_pos h]
    simp
  · rw [if_neg h]
    simp

theorem digit_char_cases (c : Char) (h : isDigitB c = true) :
    c = '0' ∨ c = '1' ∨ c = '2' ∨ c = '3' ∨ c = '4' ∨
    c = '5' ∨ c = '6' ∨ c = '7' ∨ c = '8' ∨ c = '9' := by
  have hrt := digit_roundtrip c h
  have hle : digitVal c ≤ 9 := digitVal_le c h
  have h10 : digitVal c = 0 ∨ digitVal c = 1 ∨ digitVal c = 2 ∨ digitVal c = 3 ∨
      digitVal c = 4 ∨ digitVal c = 5 ∨ digitVal c = 6 ∨ digitVal c = 7 ∨
      digitVal c = 8 ∨ digitVal c = 9 := by omega
  rcases h10 with h0|h0|h0|h0|h0|h0|h0|h0|h0|h0 <;> rw [h0] at hrt <;> rw [← hrt] <;> decide

/-- A run with no digit at its head survives dropWhile. -/
def restOk : List Char → Bool
  | [] => true
  | c :: _ => !(isDigitB c)

theorem dropWhile_digits (cs rest : List Char) (hcs : ∀ c ∈ cs, isDigitB c = true)
    (hrest : restOk rest = true) : (cs ++ rest).dropWhile isDigitB = rest := by
  induction cs with
  | nil =>
    rcases rest with _ | ⟨c, r⟩
    · rfl
    · simp only [restOk, Bool.not_eq_true'] at hrest
      simp [List.dropWhile, hrest]
  | cons c cs ih =>
    have hc : isDigitB c = true := hcs c (by simp)
    simp only [List.cons_append, List.dropWhile, hc]
    exact ih (fun x hx => hcs x (by simp [hx]))

theorem parseStr_esc : ∀ (s rest : List Char), parseStrRest (escStr s ++ '"' :: rest) = some rest := by
  intro s
  induction s with
  | nil =>
    intro rest
    simp only [escStr, List.nil_append]
    unfold parseStrRest
    simp
  | cons c cs ih =>
    intro rest
    by_cases hc : (c = '"' ∨ c = '\\')
    · have he : escChar c = ['\\', c] := by
        unfold escChar
        rcases hc with h | h <;> simp [h]
      simp only [escStr, he, List.cons_append, List.nil_append, List.append_assoc]
      unfold parseStrRest
      simp only [if_pos]
      exact ih rest
    · push_neg at hc
      have he : escChar c = [c] := by
        unfold escChar
        simp [hc.1, hc.2]
      simp only [escStr, he, List.cons_append, List.nil_append]
      unfold parseStrRest
      rw [if_neg hc.2, if_neg hc.1]
      exact ih rest

theorem parseV_rbracket (fuel : Nat) (rest : List Char) : parseVF fuel (']' :: rest) = none := by
  rcases fuel with _ | fuel <;> rfl

theorem parseV_digit (f : Nat) (c : Char) (r : List Char) (h : isDigitB c = true) :
    parseVF (f + 1) (c :: r) = some (r.dropWhile isDigitB) := by
  rcases digit_char_cases c h with h0|h0|h0|h0|h0|h0|h0|h0|h0|h0 <;> subst h0 <;> rfl

mutual

def needJ : Jdoc → Nat
  | .jnull => 1
  | .jbool _ => 1
  | .jnum _ => 1
  | .jstr _ => 1
  | .jarr xs => needA xs + 1
  | .jobj kvs => needO kvs + 1

def needA : List Jdoc → Nat
  | [] => 1
  | x :: xs => needJ x + needA xs + 1

def needO : List (List Char × Jdoc) → Nat
  | [] => 1
  | (_, v) :: kvs => needJ v + needO kvs + 1

end

mutual

theorem parse_dumpJ (d : Jdoc) (fuel : Nat) (rest : List Char)
    (hf : needJ d ≤ fuel) (hrest : restOk rest = true) :
    parseVF fuel (dumpJ d ++ rest) = some rest := by
  obtain ⟨f, rfl⟩ : ∃ f, fuel = f + 1 := by
    refine ⟨fuel - 1, ?_⟩
    have h1 : 1 ≤ needJ d := by
      rcases d <;> simp [needJ]
    omega
  cases d with
  | jnull => rfl
  | jbool b => cases b <;> rfl
  | jnum n =>
    rcases hnc : numChars n with _ | ⟨c, cs⟩
    · exact absurd hnc (numChars_ne_nil n)
    · have hmemc : c ∈ numChars n := by
        rw [hnc]
        simp
      have hcd : isDigitB c = true := natChars_digits (n + 1) n c hmemc
      have hcs : ∀ x ∈ cs, isDigitB x = true := by
        intro x hx
        have : x ∈ numChars n := by
          rw [hnc]
          simp [hx]
        exact natChars_digits (n + 1) n x this
      have hdrop : (cs ++ rest).dropWhile isDigitB = rest := dropWhile_digits cs rest hcs hrest
      show parseVF (f + 1) (numChars n ++ rest) = some rest
      rw [hnc]
      simp only [List.cons_append]
      rw [parseV_digit f c (cs ++ rest) hcd, hdrop]
  | jstr s =>
    show parseVF (f + 1) (('"' :: (escStr s ++ ['"'])) ++ rest) = some rest
    simp only [List.cons_append, List.append_assoc, List.singleton_append, List.nil_append]
    rw [show parseVF (f + 1) ('"' :: (escStr s ++ '"' :: rest))
        = parseStrRest (escStr s ++ '"' :: rest) from rfl]
    exact parseStr_esc s rest
  | jarr xs =>
    have hxs : needA xs ≤ f := by
      have he : needJ (.jarr xs) = needA xs + 1 := rfl
      omega
    show parseVF (f + 1) (('[' :: (dumpArr xs ++ [']'])) ++ rest) = some rest
    simp only [List.cons_append, List.append_assoc, List.singleton_append, List.nil_append]
    rw [show parseVF (f + 1) ('[' :: (dumpArr xs ++ ']' :: rest))
        = parseArrF f (dumpArr xs ++ ']' :: rest) from rfl]
    exact parse_dumpArr xs f rest hxs
  | jobj kvs =>
    have hks : needO kvs ≤ f := by
      have he : needJ (.jobj kvs) = needO kvs + 1 := rfl
      omega
    show parseVF (f + 1) (('\x7b' :: (dumpObj kvs ++ ['\x7d'])) ++ rest) = some rest
    simp only [List.cons_append, List.append_assoc, List.singleton_append, List.nil_append]
    rw [show parseVF (f + 1) ('\x7b' :: (dumpObj kvs ++ '\x7d' :: rest))
        = parseObjF f (dumpObj kvs ++ '\x7d' :: rest) from rfl]
    exact parse_dumpObj kvs f rest hks

theorem parse_dumpArr (xs : List Jdoc) (fuel : Nat) (rest : List Char)
    (hf : needA xs ≤ fuel) :
    parseArrF fuel (dumpArr xs ++ ']' :: rest) = some rest := by
  obtain ⟨f, rfl⟩ : ∃ f, fuel = f + 1 := by
    refine ⟨fuel - 1, ?_⟩
    have h1 : 1 ≤ needA xs := by
      rcases xs <;> simp [needA]
    omega
  match xs with
  | [] =>
    show parseArrF (f + 1) (']' :: rest) = some rest
    show (match parseVF f (']' :: rest) with
          | some (',' :: r2) => parseArrF f r2
          | some (']' :: r2) => some r2
          | some _ => none
          | none =>
            match ']' :: rest with
            | ']' :: r2 => some r2
            | _ => none) = some rest
    rw [parseV_rbracket]
    rfl
  | [x] =>
    have hx : needJ x ≤ f := by
      have he : needA [x] = needJ x + 1 + 1 := rfl
      omega
    show parseArrF (f + 1) (dumpJ x ++ ']' :: rest) = some rest
    show (match parseVF f (dumpJ x ++ ']' :: rest) with
          | some (',' :: r2) => parseArrF f r2
          | some (']' :: r2) => some r2
          | some _ => none
          | none =>
            match dumpJ x ++ ']' :: rest with
            | ']' :: r2 => some r2
            | _ => none) = some rest
    rw [parse_dumpJ x f (']' :: rest) hx (by rfl)]
    rfl
  | x :: y :: ys =>
    have hx : needJ x ≤ f := by
      have he : needA (x :: y :: ys) = needJ x + needA (y :: ys) + 1 := rfl
      omega
    have hys : needA (y :: ys) ≤ f := by
      have he : needA (x :: y :: ys) = needJ x + needA (y :: ys) + 1 := rfl
      omega
    show parseArrF (f + 1) ((dumpJ x ++ ',' :: dumpArr (y :: ys)) ++ ']' :: rest) = some rest
    simp only [List.append_assoc, List.cons_append]
    show (match parseVF f (dumpJ x ++ (',' :: (dumpArr (y :: ys) ++ ']' :: rest))) with
          | some (',' :: r2) => parseArrF f r2
          | some (']' :: r2) => some r2
          | some _ => none
          | none =>
            match dumpJ x ++ (',' :: (dumpArr (y :: ys) ++ ']' :: rest)) with
            | ']' :: r2 => some r2
            | _ => none) = some rest
    rw [parse_dumpJ x f (',' :: (dumpArr (y :: ys) ++ ']' :: rest)) hx (by rfl)]
    show parseArrF f (dumpArr (y :: ys) ++ ']' :: rest) = some rest
    exact parse_dumpArr (y :: ys) f rest hys

theorem parse_dumpObj (kvs : List (List Char × Jdoc)) (fuel : Nat) (rest : List Char)
    (hf : needO kvs ≤ fuel) :
    parseObjF fuel (dumpObj kvs ++ '\x7d' :: rest) = some rest := by
  obtain ⟨f, rfl⟩ : ∃ f, fuel = f + 1 := by
    refine ⟨fuel - 1, ?_⟩
    have h1 : 1 ≤ needO kvs := by
      rcases kvs with _ | ⟨⟨k, v⟩, kvs⟩ <;> simp [needO]
    omega
  match kvs with
  | [] =>
    show parseObjF (f + 1) ('\x7d' :: rest) = some rest
    rfl
  | [(k, v)] =>
    have hv : needJ v ≤ f := by
      have he : needO [(k, v)] = needJ v + 1 + 1 := rfl
      omega
    show parseObjF (f + 1) (('"' :: (escStr k ++ '"' :: ':' :: dumpJ v)) ++ '\x7d' :: rest) = some rest
    simp only [List.cons_append, List.append_assoc]
    show (match parseStrRest (escStr k ++ '"' :: ':' :: (dumpJ v ++ '\x7d' :: rest)) with
          | some (':' :: r2) =>
            (match parseVF f r2 with
             | some (',' :: r3) => parseObjF f r3
             | some ('\x7d' :: r3) => some r3
             | _ => none)
          | _ => none) = some rest
    rw [parseStr_esc k (':' :: (dumpJ v ++ '\x7d' :: rest))]
    show (match parseVF f (dumpJ v ++ '\x7d' :: rest) with
          | some (',' :: r3) => parseObjF f r3
          | some ('\x7d' :: r3) => some r3
          | _ => none) = some rest
    rw [parse_dumpJ v f ('\x7d' :: rest) hv (by rfl)]
    rfl
  | (k, v) :: e :: kvs2 =>
    have hv : needJ v ≤ f := by
      have he : needO ((k, v) :: e :: kvs2) = needJ v + needO (e :: kvs2) + 1 := rfl
      omega
    have hks : needO (e :: kvs2) ≤ f := by
      have he : needO ((k, v) :: e :: kvs2) = needJ v + needO (e :: kvs2) + 1 := rfl
      omega
    show parseObjF (f + 1)
        ((('"' :: (escStr k ++ '"' :: ':' :: dumpJ v)) ++ ',' :: dumpObj (e :: kvs2)) ++ '\x7d' :: rest)
      = some rest
    simp only [List.cons_append, List.append_assoc]
    show (match parseStrRest (escStr k ++ '"' :: ':' :: (dumpJ v ++ (',' :: (dumpObj (e :: kvs2) ++ '\x7d' :: rest)))) with
          | some (':' :: r2) =>
            (match parseVF f r2 with
             | some (',' :: r3) => parseObjF f r3
             | some ('\x7d' :: r3) => some r3
             | _ => none)
          | _ => none) = some rest
    rw [parseStr_esc k (':' :: (dumpJ v ++ (',' :: (dumpObj (e :: kvs2) ++ '\x7d' :: rest))))]
    show (match parseVF f (dumpJ v ++ (',' :: (dumpObj (e :: kvs2) ++ '\x7d' :: rest))) with
          | some (',' :: r3) => parseObjF f r3
          | some ('\x7d' :: r3) => some r3
          | _ => none) = some rest
    rw [parse_dumpJ v f (',' :: (dumpObj (e :: kvs2) ++ '\x7d' :: rest)) hv (by rfl)]
    show parseObjF f (dumpObj (e :: kvs2) ++ '\x7d' :: rest) = some rest
    exact parse_dumpObj (e :: kvs2) f rest hks

end


mutual

theorem needJ_le (d : Jdoc) : needJ d ≤ 2 * (dumpJ d).length := by
  cases d with
  | jnull => decide
  | jbool b => cases b <;> decide
  | jnum n =>
    have h1 : numChars n ≠ [] := numChars_ne_nil n
    have h2 : 0 < (numChars n).length := List.length_pos.mpr h1
    show needJ (.jnum n) ≤ 2 * (numChars n).length
    have h3 : needJ (.jnum n) = 1 := rfl
    omega
  | jstr s =>
    show needJ (.jstr s) ≤ 2 * ('"' :: (escStr s ++ ['"'])).length
    have h3 : needJ (.jstr s) = 1 := rfl
    simp only [List.length_cons, List.length_append, List.length_singleton]
    omega
  | jarr xs =>
    have h := needA_le xs
    show needA xs + 1 ≤ 2 * ('[' :: (dumpArr xs ++ [']'])).length
    simp only [List.length_cons, List.length_append, List.length_singleton]
    omega
  | jobj kvs =>
    have h := needO_le kvs
    show needO kvs + 1 ≤ 2 * ('\x7b' :: (dumpObj kvs ++ ['\x7d'])).length
    simp only [List.length_cons, List.length_append, List.length_singleton]
    omega

theorem needA_le (xs : List Jdoc) : needA xs ≤ 2 * (dumpArr xs).length + 2 := by
  match xs with
  | [] => decide
  | [x] =>
    have h := needJ_le x
    show needJ x + 1 + 1 ≤ 2 * (dumpJ x).length + 2
    omega
  | x :: y :: ys =>
    have h1 := needJ_le x
    have h2 := needA_le (y :: ys)
    show needJ x + needA (y :: ys) + 1 ≤ 2 * (dumpJ x ++ ',' :: dumpArr (y :: ys)).length + 2
    simp only [List.length_append, List.length_cons]
    omega

theorem needO_le (kvs : List (List Char × Jdoc)) : needO kvs ≤ 2 * (dumpObj kvs).length + 2 := by
  match kvs with
  | [] => decide
  | [(k, v)] =>
    have h := needJ_le v
    show needJ v + 1 + 1 ≤ 2 * ('"' :: (escStr k ++ '"' :: ':' :: dumpJ v)).length + 2
    simp only [List.length_cons, List.length_append]
    omega
  | (k, v) :: e :: kvs2 =>
    have h1 := needJ_le v
    have h2 := needO_le (e :: kvs2)
    show needJ v + needO (e :: kvs2) + 1 ≤
      2 * (('"' :: (escStr k ++ '"' :: ':' :: dumpJ v)) ++ ',' :: dumpObj (e :: kvs2)).length + 2
    simp only [List.length_cons, List.length_append]
    omega

end

/-- Everything the serializer writes passes the well-formedness check. -/
theorem jsonOk_dump (d : Jdoc) : jsonOk (dumpJ d) = true := by
  unfold jsonOk
  have h := parse_dumpJ d (2 * (dumpJ d).length + 1) [] (by have := needJ_le d; omega) (by rfl)
  rw [List.append_nil] at h
  rw [h]

def exPrevDoc : Jdoc := .jobj [(['a'], .jnum 1)]

def exNewDoc : Jdoc := .jobj [(['a'], .jnum 2)]

/-- Claim C6 counterexample: rewriting an already written flow file is not
atomic: the observable on-disk states of the save include the truncated
empty file, which is not valid JSON, so the content is not always valid
JSON once observed after a first write. -/
theorem C6_counterexample :
    ¬ (∀ s ∈ saveWriteTrace (dumpJ exPrevDoc) exNewDoc, jsonOk s = true) := by
  decide

/-- Claim C6 (amended): the save writes in place with a truncating open
followed by json.dump, not with a temporary file and rename: the empty
truncated state is among the observable on-disk contents and is not valid
JSON; only the final state, the serialized document, is valid JSON. -/
theorem C6_save_write_not_atomic (prev : List Char) (d : Jdoc) :
    [] ∈ saveWriteTrace prev d ∧
    jsonOk [] = false ∧
    (saveWriteTrace prev d).getLast? = some (dumpJ d) ∧
    jsonOk (dumpJ d) = true :=
  ⟨by simp [saveWriteTrace], rfl, rfl, jsonOk_dump d⟩

end FlowSync
